import Mathlib

/-!
# Verification of the DHL24 SOAP client (package `dhl`)

Shallow embedding of `src/dhl/client.go` and `src/dhl/types.go`.

The Go code builds SOAP request envelopes with `encoding/xml`'s
`MarshalIndent` over tagged structs, and decodes SOAP response envelopes
with `xml.Unmarshal` into tagged structs.  We embed XML documents as a
tree type `XML`; marshaling of each Go struct is a function from the
struct to an `XML` tree following the struct's field tags, and
unmarshaling is a fold over an element's children following the same
tags, mirroring `encoding/xml` semantics for the concrete types of this
package (element matching by local name, last-match merge semantics for
struct fields, append semantics for slice fields, chardata for string
fields, `strconv` formatting for int/bool fields).

Byte-level concerns: the serializer `serializeXML` renders a tree to
wire text (indentation whitespace inserted by `MarshalIndent` is
omitted; it is semantically inert for this package's schemas), and
`parseXMLDoc` is an executable parser for the well-formed wire-text
subset these responses use, so that decode pipelines are functions from
response bytes (`String`) as in the source.
-/

set_option maxRecDepth 16384

/-- XML document tree: elements with attributes and children, and text. -/
inductive XML where
  | elem (name : String) (attrs : List (String × String)) (children : List XML)
  | text (s : String)

namespace DHL

/-- Characters after the first `:`, or the whole list when there is
none. -/
def dropNamePrefix (cs : List Char) : List Char :=
  match cs.dropWhile (fun c => ¬ c = ':') with
  | [] => cs
  | _ :: rest => rest

/-- Local part of a possibly prefixed XML name (`soapenv:Body` ↦ `Body`).
`encoding/xml` matches struct tags without a namespace against the local
name of an element, whatever its prefix; we model prefix stripping
textually. -/
def localName (n : String) : String :=
  ⟨dropNamePrefix n.data⟩

/-- Concatenated character data directly inside an element, as collected
by `encoding/xml` for a string-typed field (nested elements skipped). -/
def textContent (children : List XML) : String :=
  children.foldl (fun acc c =>
    match c with
    | XML.text t => acc ++ t
    | XML.elem _ _ _ => acc) ""

/-! ## Scalar wire codecs (`strconv` as used by `encoding/xml`) -/

/-- Decimal digit to character. -/
def digitChar (d : Nat) : Char := Char.ofNat (48 + d)

/-- Character to decimal digit. -/
def charToDigit (c : Char) : Option Nat :=
  if 48 ≤ c.toNat ∧ c.toNat ≤ 57 then some (c.toNat - 48) else none

/-- Division loop of decimal formatting (`fuel` bounds the recursion and
is kept at least the value being formatted). -/
def formatNatAux : Nat → Nat → List Char
  | 0, _ => []
  | fuel + 1, n =>
    if n = 0 then [] else formatNatAux fuel (n / 10) ++ [digitChar (n % 10)]

/-- Decimal representation of a natural number, most significant digit
first (`strconv.FormatUint` / `FormatInt` on nonnegative values). -/
def formatNatChars (n : Nat) : List Char :=
  if n = 0 then ['0'] else formatNatAux n n

/-- Convert every character of a list to a digit; any non-digit fails. -/
def digitsOfChars : List Char → Option (List Nat)
  | [] => some []
  | c :: cs =>
    match charToDigit c, digitsOfChars cs with
    | some d, some ds => some (d :: ds)
    | _, _ => none

/-- Parse a nonempty all-digit character list as a natural number. -/
def parseNatChars (cs : List Char) : Option Nat :=
  match digitsOfChars cs with
  | none => none
  | some [] => none
  | some (d :: ds) => some (Nat.ofDigits 10 (d :: ds).reverse)

/-- Decimal representation of an integer (`strconv.FormatInt`). -/
def formatIntChars (i : Int) : List Char :=
  if i < 0 then '-' :: formatNatChars i.natAbs else formatNatChars i.natAbs

/-- Parse an optionally signed decimal integer (`strconv.ParseInt`,
without the bit-width overflow check, which no value of this development
reaches). -/
def parseIntChars (cs : List Char) : Option Int :=
  match cs with
  | [] => none
  | c :: rest =>
    if c = '-' then (parseNatChars rest).map (fun n => -(n : Int))
    else if c = '+' then (parseNatChars rest).map (fun n => (n : Int))
    else (parseNatChars (c :: rest)).map (fun n => (n : Int))

def formatNat (n : Nat) : String := ⟨formatNatChars n⟩

def parseNat (s : String) : Option Nat := parseNatChars s.data

def formatInt (i : Int) : String := ⟨formatIntChars i⟩

def parseInt (s : String) : Option Int := parseIntChars s.data

/-- `strconv.FormatBool`. -/
def formatBool (b : Bool) : String := if b then "true" else "false"

/-- `strconv.ParseBool`: the twelve accepted spellings. -/
def parseBool (s : String) : Option Bool :=
  if s = "1" ∨ s = "t" ∨ s = "T" ∨ s = "true" ∨ s = "TRUE" ∨ s = "True" then some true
  else if s = "0" ∨ s = "f" ∨ s = "F" ∨ s = "false" ∨ s = "FALSE" ∨ s = "False" then some false
  else none

/-! ## Domain model (src/dhl/types.go)

One Lean structure per Go struct, same names and field order.  `XMLName`
fields carry no data (they fix the element tag) and are represented in
the marshal functions instead.  `Piece.Weight` is `float64` in Go; its
wire codec is `strconv` float formatting/parsing, which we keep abstract
as a type parameter `W` with a format function and a parse function
(Go's `FormatFloat(w, 103, -1, 64)` / `ParseFloat` round-trip exactly;
theorems that need this take it as a hypothesis). -/

/-- `AuthData` — authentication credentials. -/
structure AuthData where
  Username : String
  Password : String
deriving DecidableEq, Repr

/-- `Address` — shipper or receiver address (request side). -/
structure Address where
  Country : String
  Name : String
  PostalCode : String
  City : String
  Street : String
  HouseNumber : String
  ApartmentNumber : String
  ContactPerson : String
  ContactPhone : String
  ContactEmail : String
deriving DecidableEq, Repr

/-- `Piece` — a single piece in a shipment (`Type` is `Type_` here;
`Type` is a reserved word in Lean). -/
structure Piece (W : Type) where
  Type_ : String
  Quantity : Int
  Weight : W
deriving DecidableEq, Repr

/-- `PieceList` — list of pieces. -/
structure PieceList (W : Type) where
  Items : List (Piece W)
deriving DecidableEq, Repr

/-- `Payment` — payment information. -/
structure Payment where
  PaymentType : String
  PayerType : String
  AccountNumber : String
  PaymentMethod : String
deriving DecidableEq, Repr

/-- `Service` — service/product information. -/
structure Service where
  Product : String
deriving DecidableEq, Repr

/-- `ShipmentItem` — a single shipment to create. -/
structure ShipmentItem (W : Type) where
  Shipper : Address
  Receiver : Address
  PieceList : DHL.PieceList W
  Payment : DHL.Payment
  Service : DHL.Service
  ShipmentDate : String
  SkipRestrictionCheck : Bool
  Comment : String
  Content : String
deriving DecidableEq, Repr

/-- `Shipments` — list of shipment items. -/
structure Shipments (W : Type) where
  Items : List (ShipmentItem W)
deriving DecidableEq, Repr

/-- `GetVersionRequest` — getVersion SOAP request (tag `ns:getVersion`,
no data fields). -/
structure GetVersionRequest where
deriving DecidableEq, Repr

/-- `GetVersionResponse` — getVersion SOAP response. -/
structure GetVersionResponse where
  Version : String
deriving DecidableEq, Repr

/-- `CreateShipmentsRequest` — createShipments SOAP request
(tag `ns:createShipments`). -/
structure CreateShipmentsRequest (W : Type) where
  AuthData : DHL.AuthData
  Shipments : DHL.Shipments W
deriving DecidableEq, Repr

/-- `CreatedShipment` — a successfully created shipment. -/
structure CreatedShipment where
  ShipmentID : String
  ShipmentNo : String
  OrderStatus : String
deriving DecidableEq, Repr

/-- `CreateShipmentsResult` — created shipments. -/
structure CreateShipmentsResult where
  Items : List CreatedShipment
deriving DecidableEq, Repr

/-- `CreateShipmentsResponse` — createShipments SOAP response. -/
structure CreateShipmentsResponse where
  Result : CreateShipmentsResult
deriving DecidableEq, Repr

/-- `GetMyShipmentsRequest` — getMyShipments SOAP request
(tag `ns:getMyShipments`). -/
structure GetMyShipmentsRequest where
  AuthData : DHL.AuthData
  CreatedFrom : String
  CreatedTo : String
  Offset : Int
deriving DecidableEq, Repr

/-- `AddressInfo` — address information on the response side. -/
structure AddressInfo where
  Name : String
  PostalCode : String
  City : String
  Street : String
  HouseNumber : String
  ApartmentNumber : String
  ContactPerson : String
  ContactPhone : String
  ContactEmail : String
deriving DecidableEq, Repr

/-- `ShipmentBasicData` — basic shipment information returned by
getMyShipments. -/
structure ShipmentBasicData where
  ShipmentID : String
  Created : String
  Shipper : AddressInfo
  Receiver : AddressInfo
  OrderStatus : String
deriving DecidableEq, Repr

/-- `GetMyShipmentsResult` — the list of shipments. -/
structure GetMyShipmentsResult where
  Items : List ShipmentBasicData
deriving DecidableEq, Repr

/-- `GetMyShipmentsResponse` — the getMyShipments response. -/
structure GetMyShipmentsResponse where
  Result : GetMyShipmentsResult
deriving DecidableEq, Repr

/-- `GetMyShipmentsBody` — SOAP body for the getMyShipments response. -/
structure GetMyShipmentsBody where
  Response : GetMyShipmentsResponse
deriving DecidableEq, Repr

/-- `GetMyShipmentsEnvelope` — SOAP envelope for the getMyShipments
response (root tag `Envelope`). -/
structure GetMyShipmentsEnvelope where
  Body : GetMyShipmentsBody
deriving DecidableEq, Repr

/-- `SOAPResponseBody` — response body with one optional slot per known
operation response. -/
structure SOAPResponseBody where
  GetVersionResponse : Option DHL.GetVersionResponse
  CreateShipmentsResponse : Option DHL.CreateShipmentsResponse
  GetMyShipmentsResponse : Option DHL.GetMyShipmentsResponse
deriving DecidableEq, Repr

/-- `SOAPResponseEnvelope` — generic SOAP response envelope (root tag
`Envelope`). -/
structure SOAPResponseEnvelope where
  Body : SOAPResponseBody
deriving DecidableEq, Repr

/-- `SOAPBody` — wraps a request content payload (already marshaled to a
tree here, mirroring the `interface{}` field). -/
structure SOAPBody where
  Content : XML

/-- `SOAPEnvelope` — SOAP request envelope: root tag `soapenv:Envelope`
with attributes `xmlns:soapenv` and `xmlns:ns`, an empty
`soapenv:Header`, and a `soapenv:Body`. -/
structure SOAPEnvelope where
  Soapenv : String
  NS : String
  Body : SOAPBody

/-- `DHL24Config` — API credentials and settings, loaded from
config.json by `LoadConfig` (the loading itself is I/O and out of
scope). -/
structure DHL24Config where
  Username : String
  Password : String
  AccountNumber : String
  DebugFiles : Bool
  DebugFilesDir : String
deriving DecidableEq, Repr

/-! ## Marshaling (struct → XML tree, following the `xml:"..."` tags) -/

/-- Children of a marshaled `Address`: `country`, `apartmentNumber` and
`contactPerson` carry `omitempty` and vanish when empty; all other
fields always appear. -/
def Address.elems (a : Address) : List XML :=
  (if a.Country = "" then [] else [XML.elem "country" [] [XML.text a.Country]]) ++
  [XML.elem "name" [] [XML.text a.Name],
   XML.elem "postalCode" [] [XML.text a.PostalCode],
   XML.elem "city" [] [XML.text a.City],
   XML.elem "street" [] [XML.text a.Street],
   XML.elem "houseNumber" [] [XML.text a.HouseNumber]] ++
  (if a.ApartmentNumber = "" then []
   else [XML.elem "apartmentNumber" [] [XML.text a.ApartmentNumber]]) ++
  (if a.ContactPerson = "" then []
   else [XML.elem "contactPerson" [] [XML.text a.ContactPerson]]) ++
  [XML.elem "contactPhone" [] [XML.text a.ContactPhone],
   XML.elem "contactEmail" [] [XML.text a.ContactEmail]]

/-- Children of a marshaled `Piece`: `type`, `quantity`, `weight`. -/
def Piece.elems {W : Type} (fmtW : W → String) (p : Piece W) : List XML :=
  [XML.elem "type" [] [XML.text p.Type_],
   XML.elem "quantity" [] [XML.text (formatInt p.Quantity)],
   XML.elem "weight" [] [XML.text (fmtW p.Weight)]]

/-- Children of a marshaled `PieceList`: one `item` element per piece. -/
def PieceList.elems {W : Type} (fmtW : W → String) (pl : PieceList W) : List XML :=
  pl.Items.map (fun p => XML.elem "item" [] (Piece.elems fmtW p))

/-- Children of a marshaled `Payment`. -/
def Payment.elems (p : Payment) : List XML :=
  [XML.elem "paymentType" [] [XML.text p.PaymentType],
   XML.elem "payerType" [] [XML.text p.PayerType],
   XML.elem "accountNumber" [] [XML.text p.AccountNumber],
   XML.elem "paymentMethod" [] [XML.text p.PaymentMethod]]

/-- Children of a marshaled `Service`. -/
def Service.elems (s : Service) : List XML :=
  [XML.elem "product" [] [XML.text s.Product]]

/-- Children of a marshaled `ShipmentItem` (none of its tags carries
`omitempty`). -/
def ShipmentItem.elems {W : Type} (fmtW : W → String) (x : ShipmentItem W) : List XML :=
  [XML.elem "shipper" [] (Address.elems x.Shipper),
   XML.elem "receiver" [] (Address.elems x.Receiver),
   XML.elem "pieceList" [] (PieceList.elems fmtW x.PieceList),
   XML.elem "payment" [] (Payment.elems x.Payment),
   XML.elem "service" [] (Service.elems x.Service),
   XML.elem "shipmentDate" [] [XML.text x.ShipmentDate],
   XML.elem "skipRestrictionCheck" [] [XML.text (formatBool x.SkipRestrictionCheck)],
   XML.elem "comment" [] [XML.text x.Comment],
   XML.elem "content" [] [XML.text x.Content]]

/-- Children of a marshaled `AuthData`. -/
def AuthData.elems (a : AuthData) : List XML :=
  [XML.elem "username" [] [XML.text a.Username],
   XML.elem "password" [] [XML.text a.Password]]

/-- Children of a marshaled `Shipments` value: one `item` per shipment. -/
def Shipments.elems {W : Type} (fmtW : W → String) (s : Shipments W) : List XML :=
  s.Items.map (fun x => XML.elem "item" [] (ShipmentItem.elems fmtW x))

/-- Marshaled `GetVersionRequest` (tag `ns:getVersion`, no children). -/
def GetVersionRequest.toXML (_r : GetVersionRequest) : XML :=
  XML.elem "ns:getVersion" [] []

/-- Marshaled `CreateShipmentsRequest` (tag `ns:createShipments`). -/
def CreateShipmentsRequest.toXML {W : Type} (fmtW : W → String)
    (r : CreateShipmentsRequest W) : XML :=
  XML.elem "ns:createShipments" []
    [XML.elem "authData" [] (AuthData.elems r.AuthData),
     XML.elem "shipments" [] (Shipments.elems fmtW r.Shipments)]

/-- Marshaled `GetMyShipmentsRequest` (tag `ns:getMyShipments`). -/
def GetMyShipmentsRequest.toXML (r : GetMyShipmentsRequest) : XML :=
  XML.elem "ns:getMyShipments" []
    [XML.elem "authData" [] (AuthData.elems r.AuthData),
     XML.elem "createdFrom" [] [XML.text r.CreatedFrom],
     XML.elem "createdTo" [] [XML.text r.CreatedTo],
     XML.elem "offset" [] [XML.text (formatInt r.Offset)]]

/-! ## Serialization (XML tree → wire text)

Mirrors `xml.MarshalIndent`'s output up to the inter-element indentation
whitespace, which is semantically inert for every schema in this
package (`xml.Unmarshal` trims it for numeric fields and ignores it
between elements). -/

/-- Escape one character of text or attribute content as
`xml.EscapeText` does. -/
def escapeChar (c : Char) : List Char :=
  if c = '&' then "&amp;".data
  else if c = '<' then "&lt;".data
  else if c = '>' then "&gt;".data
  else if c = '\'' then "&#39;".data
  else if c = '"' then "&#34;".data
  else if c = '\t' then "&#x9;".data
  else if c = '\n' then "&#xA;".data
  else if c = '\r' then "&#xD;".data
  else [c]

/-- Escape a text run. -/
def escape (s : String) : String := ⟨s.data.flatMap escapeChar⟩

/-- Serialize an attribute list (` k="v"` per attribute). -/
def serializeAttrs (attrs : List (String × String)) : String :=
  attrs.foldl (fun acc kv => acc ++ " " ++ kv.1 ++ "=\"" ++ escape kv.2 ++ "\"") ""

mutual

/-- Serialize a tree to wire text. -/
def serializeXML : XML → String
  | XML.text s => escape s
  | XML.elem n attrs children =>
      "<" ++ n ++ serializeAttrs attrs ++ ">" ++ serializeChildren children ++ "</" ++ n ++ ">"

/-- Serialize a list of child trees. -/
def serializeChildren : List XML → String
  | [] => ""
  | c :: cs => serializeXML c ++ serializeChildren cs

end

/-- `xml.Header`: the XML declaration line prepended by
`marshalSOAPRequest` (client.go:95). -/
def xmlHeader : String := "<?xml version=\"1.0\" encoding=\"UTF-8\"?>\n"

/-- `soapenvNS` (client.go:24). -/
def soapenvNS : String := "http://schemas.xmlsoap.org/soap/envelope/"

/-- `dhlNS` (client.go:25). -/
def dhlNS : String := "https://dhl24.com.pl/webapi2/provider/service.html?ws=1"

/-- Marshaled `SOAPEnvelope`: root `soapenv:Envelope` carrying the two
namespace attributes, an empty `soapenv:Header`, and a `soapenv:Body`
whose sole child is the payload. -/
def SOAPEnvelope.toXML (e : SOAPEnvelope) : XML :=
  XML.elem "soapenv:Envelope"
    [("xmlns:soapenv", e.Soapenv), ("xmlns:ns", e.NS)]
    [XML.elem "soapenv:Header" [] [],
     XML.elem "soapenv:Body" [] [e.Body.Content]]

/-- `Client.marshalSOAPRequest` (client.go:82-96): build the envelope
around the payload, serialize, and prepend the declaration line. -/
def marshalSOAPRequest (body : XML) : String :=
  xmlHeader ++ serializeXML (SOAPEnvelope.toXML ⟨soapenvNS, dhlNS, ⟨body⟩⟩)

/-! ## Unmarshaling (XML tree → struct, following the `xml:"..."` tags)

Each function walks the children of one element and fills the fields of
an accumulator record, exactly as `encoding/xml` does: an element whose
local name matches a field tag is decoded into that field (merging into
the current value for struct fields, appending for slice fields,
replacing for scalar fields); unmatched elements and interleaved
character data are skipped; a scalar parse failure aborts the whole
unmarshal. -/

/-- Go zero value of `Address`. -/
def Address.zero : Address := ⟨"", "", "", "", "", "", "", "", "", ""⟩

/-- Go zero value of `Payment`. -/
def Payment.zero : Payment := ⟨"", "", "", ""⟩

/-- Go zero value of `Service`. -/
def Service.zero : Service := ⟨""⟩

def unmarshalAddress (acc : Address) : List XML → Address
  | [] => acc
  | XML.text _ :: cs => unmarshalAddress acc cs
  | XML.elem n _ ccs :: cs =>
    let t := textContent ccs
    let acc :=
      if localName n = "country" then { acc with Country := t }
      else if localName n = "name" then { acc with Name := t }
      else if localName n = "postalCode" then { acc with PostalCode := t }
      else if localName n = "city" then { acc with City := t }
      else if localName n = "street" then { acc with Street := t }
      else if localName n = "houseNumber" then { acc with HouseNumber := t }
      else if localName n = "apartmentNumber" then { acc with ApartmentNumber := t }
      else if localName n = "contactPerson" then { acc with ContactPerson := t }
      else if localName n = "contactPhone" then { acc with ContactPhone := t }
      else if localName n = "contactEmail" then { acc with ContactEmail := t }
      else acc
    unmarshalAddress acc cs

def unmarshalPayment (acc : Payment) : List XML → Payment
  | [] => acc
  | XML.text _ :: cs => unmarshalPayment acc cs
  | XML.elem n _ ccs :: cs =>
    let t := textContent ccs
    let acc :=
      if localName n = "paymentType" then { acc with PaymentType := t }
      else if localName n = "payerType" then { acc with PayerType := t }
      else if localName n = "accountNumber" then { acc with AccountNumber := t }
      else if localName n = "paymentMethod" then { acc with PaymentMethod := t }
      else acc
    unmarshalPayment acc cs

def unmarshalService (acc : Service) : List XML → Service
  | [] => acc
  | XML.text _ :: cs => unmarshalService acc cs
  | XML.elem n _ ccs :: cs =>
    let acc :=
      if localName n = "product" then { acc with Product := textContent ccs }
      else acc
    unmarshalService acc cs

def unmarshalPiece {W : Type} (parseW : String → Option W)
    (acc : Piece W) : List XML → Option (Piece W)
  | [] => some acc
  | XML.text _ :: cs => unmarshalPiece parseW acc cs
  | XML.elem n _ ccs :: cs =>
    if localName n = "type" then
      unmarshalPiece parseW { acc with Type_ := textContent ccs } cs
    else if localName n = "quantity" then
      match parseInt (textContent ccs) with
      | none => none
      | some q => unmarshalPiece parseW { acc with Quantity := q } cs
    else if localName n = "weight" then
      match parseW (textContent ccs) with
      | none => none
      | some w => unmarshalPiece parseW { acc with Weight := w } cs
    else unmarshalPiece parseW acc cs

def unmarshalPieceList {W : Type} (parseW : String → Option W) (w0 : W)
    (acc : PieceList W) : List XML → Option (PieceList W)
  | [] => some acc
  | XML.text _ :: cs => unmarshalPieceList parseW w0 acc cs
  | XML.elem n _ ccs :: cs =>
    if localName n = "item" then
      match unmarshalPiece parseW ⟨"", 0, w0⟩ ccs with
      | none => none
      | some p => unmarshalPieceList parseW w0 ⟨acc.Items ++ [p]⟩ cs
    else unmarshalPieceList parseW w0 acc cs

/-- Go zero value of `ShipmentItem` (no piece exists yet, so no `W`
value is needed). -/
def ShipmentItem.zero {W : Type} : ShipmentItem W :=
  ⟨Address.zero, Address.zero, ⟨[]⟩, Payment.zero, Service.zero, "", false, "", ""⟩

def unmarshalShipmentItem {W : Type} (parseW : String → Option W) (w0 : W)
    (acc : ShipmentItem W) : List XML → Option (ShipmentItem W)
  | [] => some acc
  | XML.text _ :: cs => unmarshalShipmentItem parseW w0 acc cs
  | XML.elem n _ ccs :: cs =>
    if localName n = "shipper" then
      unmarshalShipmentItem parseW w0 { acc with Shipper := unmarshalAddress acc.Shipper ccs } cs
    else if localName n = "receiver" then
      unmarshalShipmentItem parseW w0 { acc with Receiver := unmarshalAddress acc.Receiver ccs } cs
    else if localName n = "pieceList" then
      match unmarshalPieceList parseW w0 acc.PieceList ccs with
      | none => none
      | some pl => unmarshalShipmentItem parseW w0 { acc with PieceList := pl } cs
    else if localName n = "payment" then
      unmarshalShipmentItem parseW w0 { acc with Payment := unmarshalPayment acc.Payment ccs } cs
    else if localName n = "service" then
      unmarshalShipmentItem parseW w0 { acc with Service := unmarshalService acc.Service ccs } cs
    else if localName n = "shipmentDate" then
      unmarshalShipmentItem parseW w0 { acc with ShipmentDate := textContent ccs } cs
    else if localName n = "skipRestrictionCheck" then
      match parseBool (textContent ccs) with
      | none => none
      | some b => unmarshalShipmentItem parseW w0 { acc with SkipRestrictionCheck := b } cs
    else if localName n = "comment" then
      unmarshalShipmentItem parseW w0 { acc with Comment := textContent ccs } cs
    else if localName n = "content" then
      unmarshalShipmentItem parseW w0 { acc with Content := textContent ccs } cs
    else unmarshalShipmentItem parseW w0 acc cs

/-- Walk the children of a `Body` element, merging every `item` child
into the accumulated `ShipmentItem` (the decode half of the round-trip
contract: unmarshaling into a field tagged `Body>item`). -/
def unmarshalItemInBody {W : Type} (parseW : String → Option W) (w0 : W)
    (acc : ShipmentItem W) : List XML → Option (ShipmentItem W)
  | [] => some acc
  | XML.text _ :: cs => unmarshalItemInBody parseW w0 acc cs
  | XML.elem n _ ccs :: cs =>
    if localName n = "item" then
      match unmarshalShipmentItem parseW w0 acc ccs with
      | none => none
      | some acc' => unmarshalItemInBody parseW w0 acc' cs
    else unmarshalItemInBody parseW w0 acc cs

/-- Walk the children of the envelope, descending into every `Body`
child. -/
def unmarshalBodyItem {W : Type} (parseW : String → Option W) (w0 : W)
    (acc : ShipmentItem W) : List XML → Option (ShipmentItem W)
  | [] => some acc
  | XML.text _ :: cs => unmarshalBodyItem parseW w0 acc cs
  | XML.elem n _ ccs :: cs =>
    if localName n = "Body" then
      match unmarshalItemInBody parseW w0 acc ccs with
      | none => none
      | some acc' => unmarshalBodyItem parseW w0 acc' cs
    else unmarshalBodyItem parseW w0 acc cs

/-- Unmarshal a whole document into a `ShipmentItem` carried at
`Envelope > Body > item` (root local name must be `Envelope`, as for the
response envelopes). -/
def decodeShipmentItemEnvelope {W : Type} (parseW : String → Option W) (w0 : W)
    (doc : XML) : Option (ShipmentItem W) :=
  match doc with
  | XML.text _ => none
  | XML.elem n _ cs =>
    if localName n = "Envelope" then
      unmarshalBodyItem parseW w0 ShipmentItem.zero cs
    else none

/-! ### Response-side unmarshaling (all fields are strings,
so these never fail below the envelope level) -/

def GetVersionResponse.zero : GetVersionResponse := ⟨""⟩

def CreatedShipment.zero : CreatedShipment := ⟨"", "", ""⟩

def CreateShipmentsResult.zero : CreateShipmentsResult := ⟨[]⟩

def CreateShipmentsResponse.zero : CreateShipmentsResponse := ⟨⟨[]⟩⟩

def AddressInfo.zero : AddressInfo := ⟨"", "", "", "", "", "", "", "", ""⟩

def ShipmentBasicData.zero : ShipmentBasicData := ⟨"", "", AddressInfo.zero, AddressInfo.zero, ""⟩

def GetMyShipmentsResult.zero : GetMyShipmentsResult := ⟨[]⟩

def GetMyShipmentsResponse.zero : GetMyShipmentsResponse := ⟨⟨[]⟩⟩

def SOAPResponseBody.zero : SOAPResponseBody := ⟨none, none, none⟩

def unmarshalGetVersionResponse (acc : GetVersionResponse) :
    List XML → GetVersionResponse
  | [] => acc
  | XML.text _ :: cs => unmarshalGetVersionResponse acc cs
  | XML.elem n _ ccs :: cs =>
    let acc :=
      if localName n = "getVersionResult" then { acc with Version := textContent ccs }
      else acc
    unmarshalGetVersionResponse acc cs

def unmarshalCreatedShipment (acc : CreatedShipment) : List XML → CreatedShipment
  | [] => acc
  | XML.text _ :: cs => unmarshalCreatedShipment acc cs
  | XML.elem n _ ccs :: cs =>
    let t := textContent ccs
    let acc :=
      if localName n = "shipmentId" then { acc with ShipmentID := t }
      else if localName n = "shipmentNo" then { acc with ShipmentNo := t }
      else if localName n = "orderStatus" then { acc with OrderStatus := t }
      else acc
    unmarshalCreatedShipment acc cs

def unmarshalCreateShipmentsResult (acc : CreateShipmentsResult) :
    List XML → CreateShipmentsResult
  | [] => acc
  | XML.text _ :: cs => unmarshalCreateShipmentsResult acc cs
  | XML.elem n _ ccs :: cs =>
    let acc :=
      if localName n = "item" then
        ⟨acc.Items ++ [unmarshalCreatedShipment CreatedShipment.zero ccs]⟩
      else acc
    unmarshalCreateShipmentsResult acc cs

def unmarshalCreateShipmentsResponse (acc : CreateShipmentsResponse) :
    List XML → CreateShipmentsResponse
  | [] => acc
  | XML.text _ :: cs => unmarshalCreateShipmentsResponse acc cs
  | XML.elem n _ ccs :: cs =>
    let acc :=
      if localName n = "createShipmentsResult" then
        { acc with Result := unmarshalCreateShipmentsResult acc.Result ccs }
      else acc
    unmarshalCreateShipmentsResponse acc cs

def unmarshalAddressInfo (acc : AddressInfo) : List XML → AddressInfo
  | [] => acc
  | XML.text _ :: cs => unmarshalAddressInfo acc cs
  | XML.elem n _ ccs :: cs =>
    let t := textContent ccs
    let acc :=
      if localName n = "name" then { acc with Name := t }
      else if localName n = "postalCode" then { acc with PostalCode := t }
      else if localName n = "city" then { acc with City := t }
      else if localName n = "street" then { acc with Street := t }
      else if localName n = "houseNumber" then { acc with HouseNumber := t }
      else if localName n = "apartmentNumber" then { acc with ApartmentNumber := t }
      else if localName n = "contactPerson" then { acc with ContactPerson := t }
      else if localName n = "contactPhone" then { acc with ContactPhone := t }
      else if localName n = "contactEmail" then { acc with ContactEmail := t }
      else acc
    unmarshalAddressInfo acc cs

def unmarshalShipmentBasicData (acc : ShipmentBasicData) :
    List XML → ShipmentBasicData
  | [] => acc
  | XML.text _ :: cs => unmarshalShipmentBasicData acc cs
  | XML.elem n _ ccs :: cs =>
    let acc :=
      if localName n = "shipmentId" then { acc with ShipmentID := textContent ccs }
      else if localName n = "created" then { acc with Created := textContent ccs }
      else if localName n = "shipper" then
        { acc with Shipper := unmarshalAddressInfo acc.Shipper ccs }
      else if localName n = "receiver" then
        { acc with Receiver := unmarshalAddressInfo acc.Receiver ccs }
      else if localName n = "orderStatus" then { acc with OrderStatus := textContent ccs }
      else acc
    unmarshalShipmentBasicData acc cs

def unmarshalGetMyShipmentsResult (acc : GetMyShipmentsResult) :
    List XML → GetMyShipmentsResult
  | [] => acc
  | XML.text _ :: cs => unmarshalGetMyShipmentsResult acc cs
  | XML.elem n _ ccs :: cs =>
    let acc :=
      if localName n = "item" then
        ⟨acc.Items ++ [unmarshalShipmentBasicData ShipmentBasicData.zero ccs]⟩
      else acc
    unmarshalGetMyShipmentsResult acc cs

def unmarshalGetMyShipmentsResponse (acc : GetMyShipmentsResponse) :
    List XML → GetMyShipmentsResponse
  | [] => acc
  | XML.text _ :: cs => unmarshalGetMyShipmentsResponse acc cs
  | XML.elem n _ ccs :: cs =>
    let acc :=
      if localName n = "getMyShipmentsResult" then
        { acc with Result := unmarshalGetMyShipmentsResult acc.Result ccs }
      else acc
    unmarshalGetMyShipmentsResponse acc cs

/-- Fill the three optional slots of `SOAPResponseBody`: a matching
element allocates the pointee if it is still nil and unmarshals into
it. -/
def unmarshalSOAPResponseBody (acc : SOAPResponseBody) :
    List XML → SOAPResponseBody
  | [] => acc
  | XML.text _ :: cs => unmarshalSOAPResponseBody acc cs
  | XML.elem n _ ccs :: cs =>
    let acc :=
      if localName n = "getVersionResponse" then
        let v := unmarshalGetVersionResponse
          (acc.GetVersionResponse.getD GetVersionResponse.zero) ccs
        { acc with GetVersionResponse := some v }
      else if localName n = "createShipmentsResponse" then
        let v := unmarshalCreateShipmentsResponse
          (acc.CreateShipmentsResponse.getD CreateShipmentsResponse.zero) ccs
        { acc with CreateShipmentsResponse := some v }
      else if localName n = "getMyShipmentsResponse" then
        let v := unmarshalGetMyShipmentsResponse
          (acc.GetMyShipmentsResponse.getD GetMyShipmentsResponse.zero) ccs
        { acc with GetMyShipmentsResponse := some v }
      else acc
    unmarshalSOAPResponseBody acc cs

def unmarshalSOAPResponseEnvelopeBody (acc : SOAPResponseBody) :
    List XML → SOAPResponseBody
  | [] => acc
  | XML.text _ :: cs => unmarshalSOAPResponseEnvelopeBody acc cs
  | XML.elem n _ ccs :: cs =>
    let acc :=
      if localName n = "Body" then unmarshalSOAPResponseBody acc ccs
      else acc
    unmarshalSOAPResponseEnvelopeBody acc cs

/-- Unmarshal a document into `SOAPResponseEnvelope`; fails exactly when
the root element's local name is not `Envelope` (the `XMLName` check,
which makes `xml.Unmarshal` return an error). -/
def unmarshalSOAPResponseEnvelope (doc : XML) : Option SOAPResponseEnvelope :=
  match doc with
  | XML.text _ => none
  | XML.elem n _ cs =>
    if localName n = "Envelope" then
      some ⟨unmarshalSOAPResponseEnvelopeBody SOAPResponseBody.zero cs⟩
    else none

def unmarshalGetMyShipmentsBody (acc : GetMyShipmentsBody) :
    List XML → GetMyShipmentsBody
  | [] => acc
  | XML.text _ :: cs => unmarshalGetMyShipmentsBody acc cs
  | XML.elem n _ ccs :: cs =>
    let acc :=
      if localName n = "getMyShipmentsResponse" then
        { acc with Response := unmarshalGetMyShipmentsResponse acc.Response ccs }
      else acc
    unmarshalGetMyShipmentsBody acc cs

def unmarshalGetMyShipmentsEnvelopeChildren (acc : GetMyShipmentsBody) :
    List XML → GetMyShipmentsBody
  | [] => acc
  | XML.text _ :: cs => unmarshalGetMyShipmentsEnvelopeChildren acc cs
  | XML.elem n _ ccs :: cs =>
    let acc :=
      if localName n = "Body" then unmarshalGetMyShipmentsBody acc ccs
      else acc
    unmarshalGetMyShipmentsEnvelopeChildren acc cs

/-- Unmarshal a document into `GetMyShipmentsEnvelope` (the dedicated
response envelope used by `GetMyShipments`; its `Response` field is a
plain value, not a pointer, so an absent slot leaves the zero value). -/
def unmarshalGetMyShipmentsEnvelope (doc : XML) : Option GetMyShipmentsEnvelope :=
  match doc with
  | XML.text _ => none
  | XML.elem n _ cs =>
    if localName n = "Envelope" then
      some ⟨unmarshalGetMyShipmentsEnvelopeChildren ⟨GetMyShipmentsResponse.zero⟩ cs⟩
    else none

/-! ## Wire-text parsing (bytes → XML tree)

An executable recursive-descent parser for the well-formed wire-text
subset used by this protocol (declaration line, nested elements with
double- or single-quoted attributes, character data with the standard
entities).  `xml.Unmarshal` fails on malformed input; here that is
`parseXMLDoc = none`. -/

def isWsChar (c : Char) : Bool :=
  c = ' ' ∨ c = '\n' ∨ c = '\t' ∨ c = '\r'

def skipWs (cs : List Char) : List Char := cs.dropWhile isWsChar

def isNameChar (c : Char) : Bool :=
  c.isAlphanum ∨ c = ':' ∨ c = '-' ∨ c = '_' ∨ c = '.'

def takeName (cs : List Char) : List Char × List Char :=
  (cs.takeWhile isNameChar, cs.dropWhile isNameChar)

/-- Resolve a character/entity reference after a `&`. -/
def parseEntity : List Char → Option (Char × List Char)
  | 'a' :: 'm' :: 'p' :: ';' :: rest => some ('&', rest)
  | 'l' :: 't' :: ';' :: rest => some ('<', rest)
  | 'g' :: 't' :: ';' :: rest => some ('>', rest)
  | 'q' :: 'u' :: 'o' :: 't' :: ';' :: rest => some ('"', rest)
  | 'a' :: 'p' :: 'o' :: 's' :: ';' :: rest => some ('\'', rest)
  | '#' :: '3' :: '9' :: ';' :: rest => some ('\'', rest)
  | '#' :: '3' :: '4' :: ';' :: rest => some ('"', rest)
  | '#' :: 'x' :: '9' :: ';' :: rest => some ('\t', rest)
  | '#' :: 'x' :: 'A' :: ';' :: rest => some ('\n', rest)
  | '#' :: 'x' :: 'D' :: ';' :: rest => some ('\r', rest)
  | _ => none

/-- Character data up to the next `<` (or end of input), entities
resolved; a stray `&` is malformed. -/
def parseText (fuel : Nat) (acc : List Char) (cs : List Char) :
    Option (List Char × List Char) :=
  match fuel with
  | 0 => none
  | fuel + 1 =>
    match cs with
    | [] => some (acc.reverse, [])
    | '<' :: rest => some (acc.reverse, '<' :: rest)
    | '&' :: rest =>
      match parseEntity rest with
      | none => none
      | some (c, rest') => parseText fuel (c :: acc) rest'
    | c :: rest => parseText fuel (c :: acc) rest

/-- Attribute value up to the closing quote `q`, entities resolved. -/
def parseAttrValue (q : Char) (fuel : Nat) (acc : List Char) (cs : List Char) :
    Option (List Char × List Char) :=
  match fuel with
  | 0 => none
  | fuel + 1 =>
    match cs with
    | [] => none
    | '&' :: rest =>
      match parseEntity rest with
      | none => none
      | some (c, rest') => parseAttrValue q fuel (c :: acc) rest'
    | c :: rest =>
      if c = q then some (acc.reverse, rest)
      else if c = '<' then none
      else parseAttrValue q fuel (c :: acc) rest

/-- Attribute list of a start tag, stopping before `/` or `>`. -/
def parseAttrs (fuel : Nat) (acc : List (String × String)) (cs : List Char) :
    Option (List (String × String) × List Char) :=
  match fuel with
  | 0 => none
  | fuel + 1 =>
    let cs' := skipWs cs
    match cs' with
    | [] => none
    | '/' :: rest => some (acc.reverse, '/' :: rest)
    | '>' :: rest => some (acc.reverse, '>' :: rest)
    | _ =>
      let (nm, rest1) := takeName cs'
      if nm.isEmpty then none
      else
        match rest1 with
        | '=' :: q :: rest2 =>
          if q = '"' ∨ q = '\'' then
            match parseAttrValue q fuel [] rest2 with
            | none => none
            | some (v, rest3) => parseAttrs fuel ((⟨nm⟩, ⟨v⟩) :: acc) rest3
          else none
        | _ => none

mutual

/-- One element, starting at `<`. -/
def parseNode (fuel : Nat) (cs : List Char) : Option (XML × List Char) :=
  match fuel with
  | 0 => none
  | fuel + 1 =>
    match cs with
    | '<' :: rest =>
      let (nm, rest1) := takeName rest
      if nm.isEmpty then none
      else
        match parseAttrs fuel [] rest1 with
        | none => none
        | some (attrs, rest2) =>
          match rest2 with
          | '/' :: '>' :: rest3 => some (XML.elem ⟨nm⟩ attrs [], rest3)
          | '>' :: rest3 =>
            match parseNodes fuel rest3 with
            | none => none
            | some (children, rest4) =>
              match rest4 with
              | '<' :: '/' :: rest5 =>
                let (nm2, rest6) := takeName rest5
                if nm2 = nm then
                  match skipWs rest6 with
                  | '>' :: rest7 => some (XML.elem ⟨nm⟩ attrs children, rest7)
                  | _ => none
                else none
              | _ => none
          | _ => none
    | _ => none

/-- Content sequence of an element, stopping before the closing tag. -/
def parseNodes (fuel : Nat) (cs : List Char) : Option (List XML × List Char) :=
  match fuel with
  | 0 => none
  | fuel + 1 =>
    match cs with
    | [] => none
    | '<' :: '/' :: rest => some ([], '<' :: '/' :: rest)
    | '<' :: rest =>
      match parseNode fuel ('<' :: rest) with
      | none => none
      | some (node, rest') =>
        match parseNodes fuel rest' with
        | none => none
        | some (nodes, rest'') => some (node :: nodes, rest'')
    | _ =>
      match parseText fuel [] cs with
      | none => none
      | some (tcs, rest') =>
        match parseNodes fuel rest' with
        | none => none
        | some (nodes, rest'') => some (XML.text ⟨tcs⟩ :: nodes, rest'')

end

/-- Skip past the end `?>` of a declaration or processing instruction. -/
def skipToDeclEnd : List Char → Option (List Char)
  | [] => none
  | '?' :: '>' :: rest => some rest
  | _ :: rest => skipToDeclEnd rest

/-- Parse a whole document: optional XML declaration, one root element,
nothing but whitespace around them. -/
def parseXMLDoc (s : String) : Option XML :=
  let cs := skipWs s.data
  let afterDecl : Option (List Char) :=
    match cs with
    | '<' :: '?' :: rest => skipToDeclEnd rest
    | _ => some cs
  match afterDecl with
  | none => none
  | some cs2 =>
    let cs3 := skipWs cs2
    match parseNode (2 * cs3.length + 8) cs3 with
    | none => none
    | some (doc, rest) => if (skipWs rest).isEmpty then some doc else none

/-! ## The Operation Client (src/dhl/client.go)

The transport (`doRequest`: HTTP POST, debug-file logging) is an
external collaborator; each method below is modeled from the point where
the response bytes are in hand.  The distinct `fmt.Errorf` sites of the
methods become the constructors of `ClientError`. -/

/-- The error outcomes of the client methods after a transport success:
`parse` is `"error parsing response: %w"` (any `xml.Unmarshal` failure),
`emptyGetVersion` is `"empty getVersion response"`,
`emptyCreateShipments` is `"empty createShipments response"`,
`noShipmentCreated` is `"no shipment created"`. -/
inductive ClientError where
  | parse
  | emptyGetVersion
  | emptyCreateShipments
  | noShipmentCreated
deriving DecidableEq, Repr

/-- `Client` (client.go:29-34); the `http.Client` is the external
transport and carries no decision-relevant state. -/
structure Client where
  config : DHL24Config
  debugFiles : Bool
  debugFilesDir : String
deriving DecidableEq, Repr

/-- `NewClient` (client.go:37-46). -/
def NewClient (config : DHL24Config) : Client :=
  ⟨config, config.DebugFiles, config.DebugFilesDir⟩

/-- `Client.authData` (client.go:131-136). -/
def Client.authData (c : Client) : AuthData :=
  ⟨c.config.Username, c.config.Password⟩

/-- Request bytes built by `GetVersion` (client.go:141): the payload is
`GetVersionRequest{}`, which carries no fields at all. -/
def Client.getVersionRequestBody (_c : Client) : String :=
  marshalSOAPRequest (GetVersionRequest.toXML ⟨⟩)

/-- Decode half of `GetVersion` (client.go:151-160): unmarshal the
response envelope, fail on a nil `GetVersionResponse` slot, otherwise
return the version string. -/
def getVersionDecode (body : String) : Except ClientError String :=
  match parseXMLDoc body with
  | none => Except.error ClientError.parse
  | some doc =>
    match unmarshalSOAPResponseEnvelope doc with
    | none => Except.error ClientError.parse
    | some envelope =>
      match envelope.Body.GetVersionResponse with
      | none => Except.error ClientError.emptyGetVersion
      | some r => Except.ok r.Version

/-- Request value built by `CreateShipments` (client.go:172-177). -/
def Client.createShipmentsRequest {W : Type} (c : Client)
    (shipments : List (ShipmentItem W)) : CreateShipmentsRequest W :=
  ⟨c.authData, ⟨shipments⟩⟩

/-- Decode half of `CreateShipments` (client.go:189-198): unmarshal the
envelope, fail on a nil `CreateShipmentsResponse` slot, otherwise return
`Result.Items` as they are. -/
def createShipmentsDecode (body : String) : Except ClientError (List CreatedShipment) :=
  match parseXMLDoc body with
  | none => Except.error ClientError.parse
  | some doc =>
    match unmarshalSOAPResponseEnvelope doc with
    | none => Except.error ClientError.parse
    | some envelope =>
      match envelope.Body.CreateShipmentsResponse with
      | none => Except.error ClientError.emptyCreateShipments
      | some r => Except.ok r.Result.Items

/-- `CreateShipments` from the response bytes on: the submitted
`shipments` take no part in decoding (client.go:171-199 has no
count comparison). -/
def createShipments {W : Type} (_shipments : List (ShipmentItem W))
    (respBody : String) : Except ClientError (List CreatedShipment) :=
  createShipmentsDecode respBody

/-- `CreateShipment` (client.go:202-213): call `CreateShipments` with a
one-element list, propagate its error, error on an empty result list,
otherwise return the first element. -/
def createShipment {W : Type} (shipment : ShipmentItem W)
    (respBody : String) : Except ClientError CreatedShipment :=
  match createShipments [shipment] respBody with
  | Except.error e => Except.error e
  | Except.ok results =>
    match results with
    | [] => Except.error ClientError.noShipmentCreated
    | r :: _ => Except.ok r

/-- Request value built by `GetMyShipments` (client.go:219-224). -/
def Client.getMyShipmentsRequest (c : Client)
    (createdFrom createdTo : String) (offset : Int) : GetMyShipmentsRequest :=
  ⟨c.authData, createdFrom, createdTo, offset⟩

/-- Decode half of `GetMyShipments` (client.go:236-241): unmarshal the
dedicated envelope and return `Body.Response.Result.Items` directly —
there is no emptiness or slot check on this path. -/
def getMyShipmentsDecode (body : String) : Except ClientError (List ShipmentBasicData) :=
  match parseXMLDoc body with
  | none => Except.error ClientError.parse
  | some doc =>
    match unmarshalGetMyShipmentsEnvelope doc with
    | none => Except.error ClientError.parse
    | some envelope => Except.ok envelope.Body.Response.Result.Items

/-! ## Calendar dates (`time.Now`, `AddDate`, `Format("2006-01-02")`)

`GetMyShipmentsLastDays` takes the current local calendar date and
shifts it by whole days; both `time.Now()` calls of the method are
modeled as one snapshot `now`.  `AddDate(0, 0, -days)` normalizes the
shifted date; shifting through a day count (civil-days algorithms with
floor division) is extensionally that normalization for pure day
offsets. -/

/-- A calendar date: the date part of a Go `time.Time`. -/
structure Date where
  Year : Int
  Month : Int
  Day : Int
deriving DecidableEq, Repr

/-- Day count since 1970-01-01 of a civil date. -/
def daysFromCivil (dt : Date) : Int :=
  let y := if dt.Month ≤ 2 then dt.Year - 1 else dt.Year
  let era := Int.fdiv y 400
  let yoe := y - era * 400
  let mp := Int.emod (dt.Month + 9) 12
  let doy := Int.fdiv (153 * mp + 2) 5 + dt.Day - 1
  let doe := yoe * 365 + Int.fdiv yoe 4 - Int.fdiv yoe 100 + doy
  era * 146097 + doe - 719468

/-- Civil date of a day count since 1970-01-01. -/
def civilFromDays (z : Int) : Date :=
  let z' := z + 719468
  let era := Int.fdiv z' 146097
  let doe := z' - era * 146097
  let yoe := Int.fdiv
    (doe - Int.fdiv doe 1460 + Int.fdiv doe 36524 - Int.fdiv doe 146096) 365
  let y := yoe + era * 400
  let doy := doe - (365 * yoe + Int.fdiv yoe 4 - Int.fdiv yoe 100)
  let mp := Int.fdiv (5 * doy + 2) 153
  let d := doy - Int.fdiv (153 * mp + 2) 5 + 1
  let m := mp + (if mp < 10 then 3 else -9)
  ⟨if m ≤ 2 then y + 1 else y, m, d⟩

/-- `AddDate(0, 0, n)` for a pure day offset. -/
def Date.addDays (dt : Date) (n : Int) : Date :=
  civilFromDays (daysFromCivil dt + n)

/-- Zero-pad to two digits (`01`, `06`). -/
def pad2 (n : Nat) : String :=
  if n < 10 then "0" ++ formatNat n else formatNat n

/-- Zero-pad to four digits (the year of `2006-01-02`). -/
def pad4 (n : Nat) : String :=
  if n < 10 then "000" ++ formatNat n
  else if n < 100 then "00" ++ formatNat n
  else if n < 1000 then "0" ++ formatNat n
  else formatNat n

/-- `Format("2006-01-02")`. -/
def Date.format (dt : Date) : String :=
  pad4 dt.Year.toNat ++ "-" ++ pad2 dt.Month.toNat ++ "-" ++ pad2 dt.Day.toNat

/-- `GetMyShipmentsLastDays` (client.go:245-249): `createdTo` is today,
`createdFrom` is today minus `days` days, offset 0; the resulting
request value handed to `GetMyShipments`. -/
def Client.getMyShipmentsLastDaysRequest (c : Client) (now : Date)
    (days : Int) : GetMyShipmentsRequest :=
  let createdTo := now.format
  let createdFrom := (now.addDays (-days)).format
  c.getMyShipmentsRequest createdFrom createdTo 0

/-! ## Sample values for the concrete instances -/

/-- A concrete shipper address. -/
def sampleShipper : Address :=
  ⟨"", "ESMALTE INC", "01249", "Warsaw", "GOLESZOWSKA", "3", "", "",
   "123456789", "sender@example.com"⟩

/-- A concrete receiver address, with the optional fields populated. -/
def sampleReceiver : Address :=
  ⟨"PL", "Test Receiver", "01249", "Warsaw", "GOLESZOWSKA", "3", "12", "Jan",
   "987654321", "receiver@example.com"⟩

/-- A concrete shipment with two pieces, over the decimal-`Nat` weight
codec. -/
def sampleItem : ShipmentItem Nat :=
  ⟨sampleShipper, sampleReceiver,
   ⟨[⟨"ENVELOPE", 1, 5⟩, ⟨"PACKAGE", 2, 30⟩]⟩,
   ⟨"BANK_TRANSFER", "SHIPPER", "123", "BANK_TRANSFER"⟩,
   ⟨"AH"⟩, "2024-06-11", true, "", "test content"⟩

/-- A response populating only the `createShipmentsResponse` slot, with
a single created item. -/
def oneItemResponse : String :=
  "<Envelope><Body><createShipmentsResponse><createShipmentsResult>" ++
  "<item><shipmentId>S1</shipmentId></item>" ++
  "</createShipmentsResult></createShipmentsResponse></Body></Envelope>"

/-- A response with two created items. -/
def twoItemResponse : String :=
  "<Envelope><Body><createShipmentsResponse><createShipmentsResult>" ++
  "<item><shipmentId>A</shipmentId></item>" ++
  "<item><shipmentId>B</shipmentId></item>" ++
  "</createShipmentsResult></createShipmentsResponse></Body></Envelope>"

/-- A business-fault response in the shape the remote service sends
(fault code 100: invalid credentials). -/
def faultResponse : String :=
  "<Envelope><Body><Fault><faultcode>100</faultcode>" ++
  "<faultstring>Invalid credentials</faultstring></Fault></Body></Envelope>"

/-- A structurally valid response populating no known slot. -/
def emptyBodyResponse : String := "<Envelope><Body></Body></Envelope>"


/-- Character-list form of `escape`. -/
def escChars (s : String) : List Char := s.data.flatMap escapeChar

/-- A usable XML name: nonempty, name characters only. -/
def goodNameChars (cs : List Char) : Prop :=
  cs ≠ [] ∧ ∀ c ∈ cs, isNameChar c = true

/-- A usable XML name, as a string. -/
def goodName (s : String) : Prop := goodNameChars s.data

/-- Serialized form of one attribute. -/
def attrChunk (kv : String × String) : List Char :=
  ' ' :: kv.1.data ++ '=' :: '"' :: escChars kv.2 ++ ['"']

mutual

/-- Canonical form of a tree after a serialize/parse round trip: an
empty text node serializes to nothing and therefore vanishes; all else
survives verbatim. -/
def canon : XML → XML
  | XML.text s => XML.text s
  | XML.elem n attrs cs => XML.elem n attrs (canonList cs)

/-- Canonical form of a child list. -/
def canonList : List XML → List XML
  | [] => []
  | XML.text s :: rest =>
    (if s = "" then [] else [XML.text s]) ++ canonList rest
  | XML.elem n a cc :: rest => XML.elem n a (canonList cc) :: canonList rest

end

/-- Trees in the image of the marshaling functions: element and
attribute names are usable XML names, and each element carries either a
single text child or a list of element children. -/
inductive WF : XML → Prop where
  | textChild : ∀ (n : String) (attrs : List (String × String)) (s : String),
      goodName n → (∀ kv ∈ attrs, goodName kv.1) →
      WF (XML.elem n attrs [XML.text s])
  | elemChildren : ∀ (n : String) (attrs : List (String × String)) (cs : List XML),
      goodName n → (∀ kv ∈ attrs, goodName kv.1) →
      (∀ c ∈ cs, WF c) →
      (∀ c ∈ cs, ∃ n' a' cc, c = XML.elem n' a' cc) →
      WF (XML.elem n attrs cs)

/-- Child lists the serializer can invert: a single text node or
element children only. -/
def ChildrenOK (cs : List XML) : Prop :=
  (∃ s, cs = [XML.text s]) ∨
    (∀ c ∈ cs, WF c ∧ ∃ n' a' cc, c = XML.elem n' a' cc)

/-- `xml.Unmarshal` of response bytes into a `ShipmentItem` carried at
`Envelope > Body > item`: parse the wire text, then walk the document. -/
def decodeShipmentItemBytes {W : Type} (parseW : String → Option W) (w0 : W)
    (s : String) : Option (ShipmentItem W) :=
  match parseXMLDoc s with
  | none => none
  | some doc => decodeShipmentItemEnvelope parseW w0 doc

theorem charToDigit_digitChar {d : Nat} (hd : d < 10) :
    charToDigit (digitChar d) = some d := by
  interval_cases d <;> rfl

theorem digitsOfChars_map_digitChar (l : List Nat) (hl : ∀ d ∈ l, d < 10) :
    digitsOfChars (l.map digitChar) = some l := by
  induction l with
  | nil => rfl
  | cons d ds ih =>
    have hd : d < 10 := hl d (by simp)
    have ihds := ih (fun x hx => hl x (by simp [hx]))
    simp [digitsOfChars, charToDigit_digitChar hd, ihds]

theorem formatNatAux_eq_digits (fuel : Nat) :
    ∀ n : Nat, n ≤ fuel →
      formatNatAux fuel n = ((Nat.digits 10 n).map digitChar).reverse := by
  induction fuel with
  | zero =>
    intro n hn
    have h0 : n = 0 := Nat.le_zero.mp hn
    subst h0
    simp [formatNatAux]
  | succ fuel ih =>
    intro n hn
    by_cases h0 : n = 0
    · subst h0; simp [formatNatAux]
    · have hdiv : n / 10 ≤ fuel := by
        have := Nat.div_lt_self (Nat.pos_of_ne_zero h0) (by norm_num : 1 < 10)
        omega
      rw [formatNatAux, if_neg h0, ih _ hdiv,
        Nat.digits_def' (by norm_num : (1 : ℕ) < 10) (Nat.pos_of_ne_zero h0)]
      simp

theorem formatNatChars_eq_digits (n : Nat) :
    formatNatChars n =
      if n = 0 then ['0'] else ((Nat.digits 10 n).map digitChar).reverse := by
  unfold formatNatChars
  by_cases h0 : n = 0
  · simp [h0]
  · rw [if_neg h0, if_neg h0, formatNatAux_eq_digits n n le_rfl]

theorem parseNatChars_formatNatChars (n : Nat) :
    parseNatChars (formatNatChars n) = some n := by
  by_cases h : n = 0
  · subst h; rfl
  · have hdig : ∀ d ∈ (Nat.digits 10 n).reverse, d < 10 := by
      intro d hd
      exact Nat.digits_lt_base (by norm_num) (List.mem_reverse.mp hd)
    have hne : Nat.digits 10 n ≠ [] := Nat.digits_ne_nil_iff_ne_zero.mpr h
    unfold parseNatChars
    rw [formatNatChars_eq_digits, if_neg h, ← List.map_reverse,
      digitsOfChars_map_digitChar _ hdig]
    rcases hrev : (Nat.digits 10 n).reverse with _ | ⟨d, ds⟩
    · exact absurd (by simpa using hrev) hne
    · have : (d :: ds).reverse = Nat.digits 10 n := by
        rw [← hrev, List.reverse_reverse]
      simp only [this, Nat.ofDigits_digits]

theorem parseNat_formatNat (n : Nat) : parseNat (formatNat n) = some n :=
  parseNatChars_formatNatChars n

theorem formatNatChars_all_digits (n : Nat) :
    ∀ c ∈ formatNatChars n, 48 ≤ c.toNat ∧ c.toNat ≤ 57 := by
  intro c hc
  rw [formatNatChars_eq_digits] at hc
  split at hc
  · simp at hc
    subst hc; exact ⟨by decide, by decide⟩
  · rw [List.mem_reverse] at hc
    obtain ⟨d, hd, rfl⟩ := List.mem_map.mp hc
    have hd10 : d < 10 := Nat.digits_lt_base (by norm_num) hd
    interval_cases d <;> exact ⟨by decide, by decide⟩

theorem parseIntChars_formatIntChars (i : Int) :
    parseIntChars (formatIntChars i) = some i := by
  by_cases hneg : i < 0
  · have habs : -((i.natAbs : Nat) : Int) = i := by omega
    unfold formatIntChars
    rw [if_pos hneg]
    simp [parseIntChars, parseNatChars_formatNatChars, habs]
    rw [abs_of_neg hneg, neg_neg]
  · unfold formatIntChars
    rw [if_neg hneg]
    have hform := parseNatChars_formatNatChars i.natAbs
    have hchars := formatNatChars_all_digits i.natAbs
    rcases hne : formatNatChars i.natAbs with _ | ⟨c, rest⟩
    · have hd := formatNatChars_eq_digits i.natAbs
      rw [hne] at hd
      split at hd
      · exact absurd hd (by simp)
      · rename_i hz
        have hnil : Nat.digits 10 i.natAbs = [] := by
          have hx := hd.symm
          simpa using hx
        exact absurd hnil (Nat.digits_ne_nil_iff_ne_zero.mpr hz)
    · have hcdig : 48 ≤ c.toNat ∧ c.toNat ≤ 57 := hchars c (by rw [hne]; simp)
      have hcm : c ≠ '-' := by
        intro h; subst h; revert hcdig; decide
      have hcp : c ≠ '+' := by
        intro h; subst h; revert hcdig; decide
      have habs : ((i.natAbs : Nat) : Int) = i := by omega
      simp only [parseIntChars]
      rw [if_neg hcm, if_neg hcp, ← hne, hform]
      simp [habs]

theorem parseInt_formatInt (i : Int) : parseInt (formatInt i) = some i :=
  parseIntChars_formatIntChars i

theorem parseBool_formatBool (b : Bool) : parseBool (formatBool b) = some b := by
  cases b <;> rfl

/-! ## Round-trip lemmas (decode after encode)

`encoding/xml` unmarshals what it marshaled back to the original value
for these schemas; proved field by field, with the piece-weight codec
abstract (hypothesis `hW`). -/

theorem unmarshalService_elems (init : Service) (s : Service) :
    unmarshalService init (Service.elems s) = s := by
  cases s; rfl

theorem unmarshalPayment_elems (init : Payment) (p : Payment) :
    unmarshalPayment init (Payment.elems p) = p := by
  cases p; rfl

theorem unmarshalAddress_elems (a : Address) :
    unmarshalAddress Address.zero (Address.elems a) = a := by
  cases a
  dsimp only [Address.elems]
  split_ifs <;> subst_vars <;> rfl

theorem unmarshalPiece_quantity_step {W : Type} (parseW : String → Option W)
    (acc : Piece W) (s : String) (q : Int) (cs : List XML)
    (h : parseInt s = some q) :
    unmarshalPiece parseW acc (XML.elem "quantity" [] [XML.text s] :: cs) =
      unmarshalPiece parseW { acc with Quantity := q } cs := by
  show (match parseInt (textContent [XML.text s]) with
    | none => none
    | some q' => unmarshalPiece parseW { acc with Quantity := q' } cs) =
      unmarshalPiece parseW { acc with Quantity := q } cs
  have ht : textContent [XML.text s] = s := rfl
  rw [ht, h]

theorem unmarshalPiece_weight_step {W : Type} (parseW : String → Option W)
    (acc : Piece W) (s : String) (w : W) (cs : List XML)
    (h : parseW s = some w) :
    unmarshalPiece parseW acc (XML.elem "weight" [] [XML.text s] :: cs) =
      unmarshalPiece parseW { acc with Weight := w } cs := by
  show (match parseW (textContent [XML.text s]) with
    | none => none
    | some w' => unmarshalPiece parseW { acc with Weight := w' } cs) =
      unmarshalPiece parseW { acc with Weight := w } cs
  have ht : textContent [XML.text s] = s := rfl
  rw [ht, h]

theorem unmarshalPiece_elems {W : Type} (fmtW : W → String)
    (parseW : String → Option W) (hW : ∀ w, parseW (fmtW w) = some w)
    (init : Piece W) (p : Piece W) :
    unmarshalPiece parseW init (Piece.elems fmtW p) = some p := by
  cases p with
  | mk t q w =>
    show unmarshalPiece parseW { init with Type_ := t }
      [XML.elem "quantity" [] [XML.text (formatInt q)],
       XML.elem "weight" [] [XML.text (fmtW w)]] = some ⟨t, q, w⟩
    rw [unmarshalPiece_quantity_step parseW _ _ q _ (parseInt_formatInt q)]
    rw [unmarshalPiece_weight_step parseW _ _ w _ (hW w)]
    rfl

theorem unmarshalPieceList_item_step {W : Type} (parseW : String → Option W)
    (w0 : W) (acc : PieceList W) (ccs : List XML) (p : Piece W) (cs : List XML)
    (h : unmarshalPiece parseW ⟨"", 0, w0⟩ ccs = some p) :
    unmarshalPieceList parseW w0 acc (XML.elem "item" [] ccs :: cs) =
      unmarshalPieceList parseW w0 ⟨acc.Items ++ [p]⟩ cs := by
  show (match unmarshalPiece parseW ⟨"", 0, w0⟩ ccs with
    | none => none
    | some p' => unmarshalPieceList parseW w0 ⟨acc.Items ++ [p']⟩ cs) =
      unmarshalPieceList parseW w0 ⟨acc.Items ++ [p]⟩ cs
  rw [h]

theorem unmarshalPieceList_items {W : Type} (fmtW : W → String)
    (parseW : String → Option W) (hW : ∀ w, parseW (fmtW w) = some w)
    (w0 : W) (l : List (Piece W)) (acc : PieceList W) :
    unmarshalPieceList parseW w0 acc
        (l.map (fun p => XML.elem "item" [] (Piece.elems fmtW p))) =
      some ⟨acc.Items ++ l⟩ := by
  induction l generalizing acc with
  | nil => simp only [List.map_nil, List.append_nil]; rfl
  | cons p l ih =>
    rw [List.map_cons,
      unmarshalPieceList_item_step parseW w0 acc _ p _
        (unmarshalPiece_elems fmtW parseW hW _ p),
      ih ⟨acc.Items ++ [p]⟩]
    simp

theorem unmarshalPieceList_elems {W : Type} (fmtW : W → String)
    (parseW : String → Option W) (hW : ∀ w, parseW (fmtW w) = some w)
    (w0 : W) (pl : PieceList W) :
    unmarshalPieceList parseW w0 ⟨[]⟩ (PieceList.elems fmtW pl) = some pl := by
  cases pl with
  | mk items =>
    have := unmarshalPieceList_items fmtW parseW hW w0 items ⟨[]⟩
    simpa using this

theorem si_step_shipper {W : Type} {parseW : String → Option W} {w0 : W}
    {acc : ShipmentItem W} {a : List (String × String)} {ccs cs : List XML}
    {v : Address} (h : unmarshalAddress acc.Shipper ccs = v) :
    unmarshalShipmentItem parseW w0 acc (XML.elem "shipper" a ccs :: cs) =
      unmarshalShipmentItem parseW w0 { acc with Shipper := v } cs := by
  subst h; rfl

theorem si_step_receiver {W : Type} {parseW : String → Option W} {w0 : W}
    {acc : ShipmentItem W} {a : List (String × String)} {ccs cs : List XML}
    {v : Address} (h : unmarshalAddress acc.Receiver ccs = v) :
    unmarshalShipmentItem parseW w0 acc (XML.elem "receiver" a ccs :: cs) =
      unmarshalShipmentItem parseW w0 { acc with Receiver := v } cs := by
  subst h; rfl

theorem si_step_pieceList {W : Type} {parseW : String → Option W} {w0 : W}
    {acc : ShipmentItem W} {a : List (String × String)} {ccs cs : List XML}
    {v : PieceList W} (h : unmarshalPieceList parseW w0 acc.PieceList ccs = some v) :
    unmarshalShipmentItem parseW w0 acc (XML.elem "pieceList" a ccs :: cs) =
      unmarshalShipmentItem parseW w0 { acc with PieceList := v } cs := by
  show (match unmarshalPieceList parseW w0 acc.PieceList ccs with
    | none => none
    | some pl => unmarshalShipmentItem parseW w0 { acc with PieceList := pl } cs) =
      unmarshalShipmentItem parseW w0 { acc with PieceList := v } cs
  rw [h]

theorem si_step_payment {W : Type} {parseW : String → Option W} {w0 : W}
    {acc : ShipmentItem W} {a : List (String × String)} {ccs cs : List XML}
    {v : Payment} (h : unmarshalPayment acc.Payment ccs = v) :
    unmarshalShipmentItem parseW w0 acc (XML.elem "payment" a ccs :: cs) =
      unmarshalShipmentItem parseW w0 { acc with Payment := v } cs := by
  subst h; rfl

theorem si_step_service {W : Type} {parseW : String → Option W} {w0 : W}
    {acc : ShipmentItem W} {a : List (String × String)} {ccs cs : List XML}
    {v : Service} (h : unmarshalService acc.Service ccs = v) :
    unmarshalShipmentItem parseW w0 acc (XML.elem "service" a ccs :: cs) =
      unmarshalShipmentItem parseW w0 { acc with Service := v } cs := by
  subst h; rfl

theorem si_step_date {W : Type} {parseW : String → Option W} {w0 : W}
    {acc : ShipmentItem W} {a : List (String × String)} {ccs cs : List XML} :
    unmarshalShipmentItem parseW w0 acc (XML.elem "shipmentDate" a ccs :: cs) =
      unmarshalShipmentItem parseW w0 { acc with ShipmentDate := textContent ccs } cs := rfl

theorem si_step_skip {W : Type} {parseW : String → Option W} {w0 : W}
    {acc : ShipmentItem W} {a : List (String × String)} {s : String} {cs : List XML}
    {b : Bool} (h : parseBool s = some b) :
    unmarshalShipmentItem parseW w0 acc
        (XML.elem "skipRestrictionCheck" a [XML.text s] :: cs) =
      unmarshalShipmentItem parseW w0 { acc with SkipRestrictionCheck := b } cs := by
  show (match parseBool s with
    | none => none
    | some b' => unmarshalShipmentItem parseW w0 { acc with SkipRestrictionCheck := b' } cs) =
      unmarshalShipmentItem parseW w0 { acc with SkipRestrictionCheck := b } cs
  rw [h]

theorem unmarshalShipmentItem_elems {W : Type} (fmtW : W → String)
    (parseW : String → Option W) (hW : ∀ w, parseW (fmtW w) = some w)
    (w0 : W) (x : ShipmentItem W) :
    unmarshalShipmentItem parseW w0 ShipmentItem.zero (ShipmentItem.elems fmtW x) =
      some x := by
  cases x with
  | mk sh rc pl py sv sd sk cm ct =>
    dsimp only [ShipmentItem.elems]
    rw [si_step_shipper (unmarshalAddress_elems sh)]
    rw [si_step_receiver (unmarshalAddress_elems rc)]
    rw [si_step_pieceList (unmarshalPieceList_elems fmtW parseW hW w0 pl)]
    rw [si_step_payment (unmarshalPayment_elems _ py)]
    rw [si_step_service (unmarshalService_elems _ sv)]
    rw [si_step_date]
    rw [si_step_skip (parseBool_formatBool sk)]
    rfl

theorem itemInBody_step {W : Type} {parseW : String → Option W} {w0 : W}
    {acc acc2 : ShipmentItem W} {a : List (String × String)} {ccs cs : List XML}
    (h : unmarshalShipmentItem parseW w0 acc ccs = some acc2) :
    unmarshalItemInBody parseW w0 acc (XML.elem "item" a ccs :: cs) =
      unmarshalItemInBody parseW w0 acc2 cs := by
  show (match unmarshalShipmentItem parseW w0 acc ccs with
    | none => none
    | some acc' => unmarshalItemInBody parseW w0 acc' cs) =
      unmarshalItemInBody parseW w0 acc2 cs
  rw [h]

/-! ## Slot-absence bridge lemmas

When the generic response body decodes with its `getMyShipmentsResponse`
slot absent, the dedicated `GetMyShipmentsEnvelope` decode of the same
document keeps its zero value (no element fed either decoder). -/

theorem unmarshalBody_sms_none {cs : List XML} :
    ∀ {acc : SOAPResponseBody},
      (unmarshalSOAPResponseBody acc cs).GetMyShipmentsResponse = none →
      acc.GetMyShipmentsResponse = none := by
  induction cs with
  | nil => intro acc h; exact h
  | cons c cs ih =>
    intro acc h
    cases c with
    | text s => exact @ih _ h
    | elem n a ccs =>
      simp only [unmarshalSOAPResponseBody] at h
      split_ifs at h with h1 h2 h3
      · have hx := @ih _ h; exact hx
      · have hx := @ih _ h; exact hx
      · have hx := @ih _ h
        simp at hx
      · have hx := @ih _ h; exact hx

theorem getMyBody_of_body_none {cs : List XML} :
    ∀ {acc : SOAPResponseBody} {bacc : GetMyShipmentsBody},
      (unmarshalSOAPResponseBody acc cs).GetMyShipmentsResponse = none →
      unmarshalGetMyShipmentsBody bacc cs = bacc := by
  induction cs with
  | nil => intro acc bacc _; rfl
  | cons c cs ih =>
    intro acc bacc h
    cases c with
    | text s =>
      simp only [unmarshalSOAPResponseBody] at h
      simp only [unmarshalGetMyShipmentsBody]
      have hx := @ih _ bacc h; exact hx
    | elem n a ccs =>
      by_cases hsms : localName n = "getMyShipmentsResponse"
      · simp only [unmarshalSOAPResponseBody, hsms] at h
        simp at h
        have hx := @unmarshalBody_sms_none cs _ h
        simp at hx
      · simp only [unmarshalSOAPResponseBody] at h
        simp only [unmarshalGetMyShipmentsBody, if_neg hsms]
        split_ifs at h with h1 h2
        · have hx := @ih _ bacc h; exact hx
        · have hx := @ih _ bacc h; exact hx
        · have hx := @ih _ bacc h; exact hx

theorem unmarshalEnvBody_sms_none {cs : List XML} :
    ∀ {acc : SOAPResponseBody},
      (unmarshalSOAPResponseEnvelopeBody acc cs).GetMyShipmentsResponse = none →
      acc.GetMyShipmentsResponse = none := by
  induction cs with
  | nil => intro acc h; exact h
  | cons c cs ih =>
    intro acc h
    cases c with
    | text s => exact @ih _ h
    | elem n a ccs =>
      simp only [unmarshalSOAPResponseEnvelopeBody] at h
      split_ifs at h with h1
      · have hx := @ih _ h
        exact unmarshalBody_sms_none hx
      · have hx := @ih _ h; exact hx

theorem getMyEnv_of_env_none {cs : List XML} :
    ∀ {acc : SOAPResponseBody} {bacc : GetMyShipmentsBody},
      (unmarshalSOAPResponseEnvelopeBody acc cs).GetMyShipmentsResponse = none →
      unmarshalGetMyShipmentsEnvelopeChildren bacc cs = bacc := by
  induction cs with
  | nil => intro acc bacc _; rfl
  | cons c cs ih =>
    intro acc bacc h
    cases c with
    | text s =>
      simp only [unmarshalSOAPResponseEnvelopeBody] at h
      simp only [unmarshalGetMyShipmentsEnvelopeChildren]
      have hx := @ih _ bacc h; exact hx
    | elem n a ccs =>
      simp only [unmarshalSOAPResponseEnvelopeBody] at h
      simp only [unmarshalGetMyShipmentsEnvelopeChildren]
      split_ifs at h ⊢ with h1
      · have hmid := @unmarshalEnvBody_sms_none cs _ h
        rw [getMyBody_of_body_none hmid]
        have hx := @ih _ bacc h; exact hx
      · have hx := @ih _ bacc h; exact hx

theorem getMyShipments_env_of_no_slot {doc : XML} {env : SOAPResponseEnvelope}
    (henv : unmarshalSOAPResponseEnvelope doc = some env)
    (hnone : env.Body.GetMyShipmentsResponse = none) :
    unmarshalGetMyShipmentsEnvelope doc =
      some ⟨⟨GetMyShipmentsResponse.zero⟩⟩ := by
  cases doc with
  | text s => exact absurd henv (by simp [unmarshalSOAPResponseEnvelope])
  | elem n a cs =>
    simp only [unmarshalSOAPResponseEnvelope] at henv
    split_ifs at henv with h1
    · simp only [Option.some.injEq] at henv
      subst henv
      have hx := @getMyEnv_of_env_none cs _ ⟨GetMyShipmentsResponse.zero⟩ hnone
      simp only [unmarshalGetMyShipmentsEnvelope, if_pos h1, hx]

theorem escape_data (s : String) : (escape s).data = escChars s := rfl

theorem string_eta (s : String) : String.mk s.data = s := rfl

theorem escChars_cons (c : Char) (s : List Char) :
    (c :: s).flatMap escapeChar = escapeChar c ++ s.flatMap escapeChar := rfl

theorem escapeChar_length_pos (c : Char) : 1 ≤ (escapeChar c).length := by
  unfold escapeChar
  split_ifs <;> simp

theorem escapeChar_ne_lt (c d : Char) (h : d ∈ escapeChar c) : ¬ d = '<' := by
  unfold escapeChar at h
  split_ifs at h with h1 h2 h3 h4 h5 h6 h7 h8 <;>
    first
      | (intro hd; subst hd; exact absurd h (by decide))
      | (intro hd; subst hd; simp at h; exact h2 h.symm)

theorem takeWhile_append_all {p : Char → Bool} {l r : List Char}
    (hl : ∀ c ∈ l, p c = true)
    (hr : ∀ c t, r = c :: t → p c = false) :
    (l ++ r).takeWhile p = l ∧ (l ++ r).dropWhile p = r := by
  induction l with
  | nil =>
    cases r with
    | nil => simp
    | cons c t => simp [List.takeWhile_cons, List.dropWhile_cons, hr c t rfl]
  | cons c l ih =>
    have hc : p c = true := hl c (by simp)
    have ihr := ih (fun x hx => hl x (by simp [hx]))
    simp [List.takeWhile_cons, List.dropWhile_cons, hc, ihr.1, ihr.2]

theorem takeName_append {nm X : List Char}
    (hnm : ∀ c ∈ nm, isNameChar c = true)
    (hX : ∀ c t, X = c :: t → isNameChar c = false) :
    takeName (nm ++ X) = (nm, X) := by
  have h := takeWhile_append_all hnm hX
  simp [takeName, h.1, h.2]

/-- One escaped source character is consumed by exactly one `parseText`
step and decodes back to that character. -/
theorem parseText_escapeChar_step (c : Char) (acc T : List Char) (f : Nat) :
    parseText (f + 1) acc (escapeChar c ++ T) = parseText f (c :: acc) T := by
  unfold escapeChar
  split_ifs with h1 h2 h3 h4 h5 h6 h7 h8
  · subst h1; rfl
  · subst h2; rfl
  · subst h3; rfl
  · subst h4; rfl
  · subst h5; rfl
  · subst h6; rfl
  · subst h7; rfl
  · subst h8; rfl
  · show parseText (f + 1) acc (c :: T) = parseText f (c :: acc) T
    simp only [parseText]

/-- `parseText` reads escaped character data back verbatim, stopping at
end of input or a `<`. -/
theorem parseText_escaped (l : List Char) :
    ∀ (acc rest : List Char) (fuel : Nat),
      (rest = [] ∨ ∃ t, rest = '<' :: t) →
      fuel ≥ (l.flatMap escapeChar).length + 1 →
      parseText fuel acc (l.flatMap escapeChar ++ rest) =
        some (acc.reverse ++ l, rest) := by
  induction l with
  | nil =>
    intro acc rest fuel hrest hfuel
    cases fuel with
    | zero => omega
    | succ f =>
      rcases hrest with h | ⟨t, h⟩
      · subst h; simp [parseText]
      · subst h; simp [parseText]
  | cons c l ih =>
    intro acc rest fuel hrest hfuel
    have hlen := escapeChar_length_pos c
    have hsplit : ((c :: l).flatMap escapeChar).length =
        (escapeChar c).length + (l.flatMap escapeChar).length := by
      rw [escChars_cons, List.length_append]
    cases fuel with
    | zero => omega
    | succ f =>
      have hf : f ≥ (l.flatMap escapeChar).length + 1 := by omega
      rw [escChars_cons, List.append_assoc,
        parseText_escapeChar_step c acc _ f, ih _ rest f hrest hf]
      simp


theorem nameChar_props {c : Char} (h : isNameChar c = true) :
    isWsChar c = false ∧ c ≠ '/' ∧ c ≠ '>' ∧ c ≠ '=' ∧ c ≠ '<' ∧ c ≠ '&' := by
  refine ⟨?_, ?_, ?_, ?_, ?_, ?_⟩
  · by_contra hw
    have hw' : isWsChar c = true := by
      cases hx : isWsChar c
      · exact absurd hx hw
      · rfl
    unfold isWsChar at hw'
    simp only [decide_eq_true_eq] at hw'
    rcases hw' with h' | h' | h' | h' <;> subst h' <;> exact absurd h (by decide)
  · intro hc; subst hc; exact absurd h (by decide)
  · intro hc; subst hc; exact absurd h (by decide)
  · intro hc; subst hc; exact absurd h (by decide)
  · intro hc; subst hc; exact absurd h (by decide)
  · intro hc; subst hc; exact absurd h (by decide)

theorem quote_ne_amp {q : Char} (hq : q = '"' ∨ q = '\'') : ¬ q = '&' := by
  rcases hq with h | h <;> subst h <;> decide

/-- One escaped source character is consumed by exactly one
`parseAttrValue` step. -/
theorem parseAttrValue_escapeChar_step (q c : Char) (acc T : List Char)
    (f : Nat) (hq : q = '"' ∨ q = '\'') :
    parseAttrValue q (f + 1) acc (escapeChar c ++ T) =
      parseAttrValue q f (c :: acc) T := by
  unfold escapeChar
  split_ifs with h1 h2 h3 h4 h5 h6 h7 h8
  · subst h1; rfl
  · subst h2; rfl
  · subst h3; rfl
  · subst h4; rfl
  · subst h5; rfl
  · subst h6; rfl
  · subst h7; rfl
  · subst h8; rfl
  · show parseAttrValue q (f + 1) acc (c :: T) = _
    have hcq : ¬ c = q := by
      rcases hq with h | h <;> subst h
      · exact h5
      · exact h4
    simp only [parseAttrValue, if_neg hcq, if_neg h2]

/-- `parseAttrValue` reads an escaped attribute value back verbatim up
to the closing quote. -/
theorem parseAttrValue_escaped (l : List Char) :
    ∀ (acc rest : List Char) (fuel : Nat) (q : Char),
      (q = '"' ∨ q = '\'') →
      fuel ≥ (l.flatMap escapeChar).length + 2 →
      parseAttrValue q fuel acc (l.flatMap escapeChar ++ q :: rest) =
        some (acc.reverse ++ l, rest) := by
  induction l with
  | nil =>
    intro acc rest fuel q hq hfuel
    cases fuel with
    | zero => omega
    | succ f =>
      show parseAttrValue q (f + 1) acc (q :: rest) = _
      have hqa := quote_ne_amp hq
      simp only [parseAttrValue, if_pos rfl]
      simp
  | cons c l ih =>
    intro acc rest fuel q hq hfuel
    have hlen := escapeChar_length_pos c
    have hsplit : ((c :: l).flatMap escapeChar).length =
        (escapeChar c).length + (l.flatMap escapeChar).length := by
      rw [escChars_cons, List.length_append]
    cases fuel with
    | zero => omega
    | succ f =>
      have hf : f ≥ (l.flatMap escapeChar).length + 2 := by omega
      rw [escChars_cons, List.append_assoc,
        parseAttrValue_escapeChar_step q c acc _ f hq, ih _ rest f q hq hf]
      simp

theorem serializeAttrs_foldl (attrs : List (String × String)) :
    ∀ acc : String,
      (List.foldl
        (fun acc kv => acc ++ " " ++ kv.1 ++ "=\"" ++ escape kv.2 ++ "\"")
        acc attrs).data = acc.data ++ attrs.flatMap attrChunk := by
  induction attrs with
  | nil => intro acc; simp
  | cons kv attrs ih =>
    intro acc
    rw [List.foldl_cons, ih]
    simp [String.data_append, attrChunk, escape_data, List.append_assoc]

theorem serializeAttrs_data (attrs : List (String × String)) :
    (serializeAttrs attrs).data = attrs.flatMap attrChunk := by
  have h := serializeAttrs_foldl attrs ""
  simpa [serializeAttrs] using h

/-- `parseAttrs` reads serialized attributes back verbatim, stopping
before `/` or `>`. -/
theorem parseAttrs_chunks (attrs : List (String × String))
    (hgood : ∀ kv ∈ attrs, goodName kv.1) :
    ∀ (acc : List (String × String)) (rest : List Char) (fuel : Nat),
      (∃ t, rest = '/' :: t ∨ rest = '>' :: t) →
      fuel ≥ (attrs.flatMap attrChunk).length + 2 →
      parseAttrs fuel acc (attrs.flatMap attrChunk ++ rest) =
        some (acc.reverse ++ attrs, rest) := by
  induction attrs with
  | nil =>
    intro acc rest fuel hrest hfuel
    cases fuel with
    | zero => omega
    | succ f =>
      rcases hrest with ⟨t, h | h⟩ <;> subst h <;>
        simp [parseAttrs, skipWs, List.dropWhile_cons, isWsChar]
  | cons kv attrs ih =>
    intro acc rest fuel hrest hfuel
    obtain ⟨k, v⟩ := kv
    have hk : goodName k := hgood (k, v) (by simp)
    obtain ⟨hkne, hkchars⟩ := hk
    rcases hkd : k.data with _ | ⟨kc, krest⟩
    · exact absurd hkd hkne
    have hkc : isNameChar kc = true := by
      apply hkchars; rw [hkd]; simp
    have hkcp := nameChar_props hkc
    have hchunklen : (attrChunk (k, v)).length =
        k.data.length + (escChars v).length + 4 := by
      simp [attrChunk]
      omega
    have hflat : ((k, v) :: attrs).flatMap attrChunk =
        attrChunk (k, v) ++ attrs.flatMap attrChunk := rfl
    cases fuel with
    | zero =>
      rw [hflat, List.length_append] at hfuel
      omega
    | succ f =>
      rw [hflat, List.length_append] at hfuel
      rw [hflat, List.append_assoc]
      show parseAttrs (f + 1) acc
        (attrChunk (k, v) ++ (attrs.flatMap attrChunk ++ rest)) = _
      simp only [parseAttrs]
      have hskip : skipWs (attrChunk (k, v) ++ (attrs.flatMap attrChunk ++ rest)) =
          (k.data ++ ('=' :: '"' :: escChars v ++ ['"'])) ++
            (attrs.flatMap attrChunk ++ rest) := by
        simp only [attrChunk, skipWs, List.cons_append, List.dropWhile_cons]
        rw [if_pos (by decide)]
        rw [hkd]
        simp only [List.cons_append, List.dropWhile_cons]
        rw [if_neg (by simp [hkcp.1])]
        simp [List.append_assoc]
      rw [hskip]
      have htn : takeName ((k.data ++ ('=' :: '"' :: escChars v ++ ['"'])) ++
            (attrs.flatMap attrChunk ++ rest)) =
          (k.data, ('=' :: '"' :: escChars v ++ ['"']) ++
            (attrs.flatMap attrChunk ++ rest)) := by
        rw [List.append_assoc]
        exact takeName_append hkchars (by
          intro c t h
          injection h with h1 h2
          rw [← h1]
          decide)
      split
      · rename_i heq
        rw [hkd] at heq
        simp at heq
      · rename_i r heq
        simp only [hkd, List.cons_append, List.cons.injEq] at heq
        exact absurd heq.1 hkcp.2.1
      · rename_i r heq
        simp only [hkd, List.cons_append, List.cons.injEq] at heq
        exact absurd heq.1 hkcp.2.2.1
      · rw [htn]
        simp only [List.isEmpty_iff]
        rw [if_neg hkne]
        simp only [List.cons_append]
        have hvfuel : f ≥ (v.data.flatMap escapeChar).length + 2 := by
          have hesc : (v.data.flatMap escapeChar).length = (escChars v).length := rfl
          omega
        simp only [true_or, if_true]
        have hlist : escChars v ++ ['"'] ++ (attrs.flatMap attrChunk ++ rest) =
            v.data.flatMap escapeChar ++
              '"' :: (attrs.flatMap attrChunk ++ rest) := by
          simp [escChars, List.append_assoc]
        rw [hlist]
        have hval' : parseAttrValue '"' f []
            (v.data.flatMap escapeChar ++
              '"' :: (attrs.flatMap attrChunk ++ rest)) =
            some (v.data, attrs.flatMap attrChunk ++ rest) := by
          simpa using parseAttrValue_escaped v.data []
            (attrs.flatMap attrChunk ++ rest) f '"' (Or.inl rfl) hvfuel
        rw [hval']
        show parseAttrs f ((k, v) :: acc) (attrs.flatMap attrChunk ++ rest) =
          some (acc.reverse ++ (k, v) :: attrs, rest)
        rw [ih (fun kv h => hgood kv (by simp [h])) ((k, v) :: acc) rest f hrest
          (by omega)]
        simp


theorem WF_inv {t : XML} (h : WF t) :
    ∃ n attrs cs, t = XML.elem n attrs cs ∧ goodName n ∧
      (∀ kv ∈ attrs, goodName kv.1) ∧ ChildrenOK cs := by
  cases h with
  | textChild n attrs s hn ha =>
    exact ⟨n, attrs, [XML.text s], rfl, hn, ha, Or.inl ⟨s, rfl⟩⟩
  | elemChildren n attrs cs hn ha hwf hsh =>
    exact ⟨n, attrs, cs, rfl, hn, ha, Or.inr (fun c hc => ⟨hwf c hc, hsh c hc⟩)⟩

theorem serializeXML_elem_eq (n : String) (a : List (String × String))
    (cs : List XML) :
    serializeXML (XML.elem n a cs) =
      "<" ++ n ++ serializeAttrs a ++ ">" ++ serializeChildren cs ++
        "</" ++ n ++ ">" := rfl

theorem serializeChildren_nil_eq : serializeChildren [] = "" := rfl

theorem serializeChildren_cons_eq (c : XML) (cs : List XML) :
    serializeChildren (c :: cs) = serializeXML c ++ serializeChildren cs := rfl

theorem serializeXML_text_eq (s : String) :
    serializeXML (XML.text s) = escape s := rfl

theorem serializeXML_elem_data (n : String) (a : List (String × String))
    (cs : List XML) :
    (serializeXML (XML.elem n a cs)).data =
      '<' :: (n.data ++ ((serializeAttrs a).data ++
        ('>' :: ((serializeChildren cs).data ++
          ('<' :: '/' :: (n.data ++ ['>'])))))) := by
  rw [serializeXML_elem_eq]
  simp only [String.data_append, List.append_assoc]
  rfl

theorem serializeChildren_cons_data (c : XML) (cs : List XML) :
    (serializeChildren (c :: cs)).data =
      (serializeXML c).data ++ (serializeChildren cs).data := by
  rw [serializeChildren_cons_eq, String.data_append]

theorem serializeXML_elem_data_length (n : String)
    (a : List (String × String)) (cs : List XML) :
    (serializeXML (XML.elem n a cs)).data.length =
      2 * n.data.length + (serializeAttrs a).data.length +
        (serializeChildren cs).data.length + 5 := by
  rw [serializeXML_elem_data]
  simp
  omega

theorem attrs_head_not_name (a : List (String × String)) (Y : List Char) :
    ∀ c t, (serializeAttrs a).data ++ '>' :: Y = c :: t →
      isNameChar c = false := by
  intro c t h
  cases a with
  | nil =>
    rw [show (serializeAttrs []).data = [] from rfl, List.nil_append,
      List.cons.injEq] at h
    rw [← h.1]
    decide
  | cons kv a =>
    rw [serializeAttrs_data] at h
    rw [show ((kv :: a).flatMap attrChunk) =
      attrChunk kv ++ a.flatMap attrChunk from rfl] at h
    simp only [attrChunk, List.cons_append, List.cons.injEq] at h
    rw [← h.1]
    decide

/-- Parser correctness on serialized well-formed trees: parsing the
serialization of a tree yields its canonical form and leaves the
trailing input untouched. -/
theorem parseNodes_cons_elem (f : Nat) (c : Char) (X : List Char)
    (hc : ¬ c = '/') :
    parseNodes (f + 1) ('<' :: c :: X) =
      (match parseNode f ('<' :: c :: X) with
       | none => none
       | some (node, rest1) =>
         match parseNodes f rest1 with
         | none => none
         | some (nodes, rest2) => some (node :: nodes, rest2)) := by
  simp only [parseNodes]
  split
  · rename_i heq
    simp at heq
  · rename_i rest heq
    rw [List.cons.injEq, List.cons.injEq] at heq
    exact absurd heq.2.1 hc
  · rename_i rest heq
    rw [List.cons.injEq] at heq
    rw [heq.2]
  · rename_i x h1 h2 h3
    exact absurd rfl (h3 (c :: X))

theorem parse_serialize_main (k : Nat) :
    (∀ t : XML, sizeOf t ≤ k → WF t → ∀ (fuel : Nat) (rest : List Char),
      fuel ≥ 2 * ((serializeXML t).data.length + rest.length) + 1 →
      parseNode fuel ((serializeXML t).data ++ rest) = some (canon t, rest)) ∧
    (∀ cs : List XML, sizeOf cs ≤ k → ChildrenOK cs →
      ∀ (fuel : Nat) (rest t0 : List Char),
      rest = '<' :: '/' :: t0 →
      fuel ≥ 2 * ((serializeChildren cs).data.length + rest.length) + 2 →
      parseNodes fuel ((serializeChildren cs).data ++ rest) =
        some (canonList cs, rest)) := by
  induction k with
  | zero =>
    constructor
    · intro t hsz
      cases t <;> simp at hsz
    · intro cs hsz hok fuel rest t0 hrest hfuel
      cases cs with
      | nil =>
        subst hrest
        cases fuel with
        | zero => omega
        | succ f =>
          simp [serializeChildren_nil_eq, parseNodes, canonList]
      | cons c cs => simp at hsz
  | succ k ih =>
    constructor
    · -- single element
      intro t hsz hwf fuel rest hfuel
      obtain ⟨n, attrs, cs, rfl, hn, ha, hok⟩ := WF_inv hwf
      have hszcs : sizeOf cs ≤ k := by
        have := XML.elem.sizeOf_spec n attrs cs
        omega
      cases fuel with
      | zero => omega
      | succ f =>
        rw [serializeXML_elem_data]
        simp only [List.cons_append, List.append_assoc]
        show parseNode (f + 1)
          ('<' :: (n.data ++ ((serializeAttrs attrs).data ++
            ('>' :: ((serializeChildren cs).data ++
              ('<' :: '/' :: (n.data ++ ('>' :: rest)))))))) = _
        simp only [parseNode]
        obtain ⟨hne, hchars⟩ := hn
        have htn := takeName_append hchars
          (attrs_head_not_name attrs
            ((serializeChildren cs).data ++
              ('<' :: '/' :: (n.data ++ ('>' :: rest)))))
        rw [htn]
        simp only [List.isEmpty_iff]
        rw [if_neg hne]
        have hattrs := parseAttrs_chunks attrs ha []
          ('>' :: ((serializeChildren cs).data ++
            ('<' :: '/' :: (n.data ++ ('>' :: rest))))) f
          ⟨_, Or.inr rfl⟩
          (by
            have h1 := serializeXML_elem_data_length n attrs cs
            rw [serializeAttrs_data] at h1
            omega)
        rw [← serializeAttrs_data] at hattrs
        rw [hattrs]
        simp only [List.reverse_nil, List.nil_append]
        have hnodes := (ih.2 cs hszcs hok f
          ('<' :: '/' :: (n.data ++ ('>' :: rest)))
          (n.data ++ ('>' :: rest)) rfl
          (by
            have h1 := serializeXML_elem_data_length n attrs cs
            simp only [List.length_cons, List.length_append] at *
            omega))
        rw [hnodes]
        have htn2 := takeName_append hchars
          (by
            intro c t h
            rw [List.cons.injEq] at h
            rw [← h.1]
            decide :
            ∀ c t, ('>' :: rest) = c :: t → isNameChar c = false)
        simp [htn2, skipWs, List.dropWhile_cons, isWsChar, canon, string_eta]
    · -- child list
      intro cs hsz hok fuel rest t0 hrest hfuel
      rcases hok with ⟨s, rfl⟩ | helems
      · -- single text child
        by_cases hs : s = ""
        · subst hs
          subst hrest
          cases fuel with
          | zero => omega
          | succ f =>
            show parseNodes (f + 1)
              ((serializeChildren [XML.text ""]).data ++ '<' :: '/' :: t0) = _
            rw [show (serializeChildren [XML.text ""]).data = [] from rfl]
            simp [parseNodes, canonList]
        · subst hrest
          have hdata : (serializeChildren [XML.text s]).data =
              s.data.flatMap escapeChar := by
            rw [serializeChildren_cons_eq, serializeXML_text_eq]
            rw [String.data_append, escape_data]
            rw [show (serializeChildren []).data = ([] : List Char) from rfl]
            simp [escChars]
          rw [hdata]
          have hsne : s.data ≠ [] := fun h => hs (by
            cases s with
            | mk l => simp at h; rw [h])
          rcases hsd : s.data with _ | ⟨c0, srest⟩
          · exact absurd hsd hsne
          · cases fuel with
            | zero => omega
            | succ f =>
              rw [escChars_cons, List.append_assoc]
              rcases hed : escapeChar c0 with _ | ⟨d0, drest⟩
              · have := escapeChar_length_pos c0
                rw [hed] at this
                simp at this
              · have hd0lt : ¬ d0 = '<' :=
                  escapeChar_ne_lt c0 d0 (by rw [hed]; simp)
                simp only [List.cons_append]
                show parseNodes (f + 1)
                  (d0 :: (drest ++ (srest.flatMap escapeChar ++
                    '<' :: '/' :: t0))) = _
                simp only [parseNodes]
                have hback : d0 :: (drest ++ (srest.flatMap escapeChar ++
                    '<' :: '/' :: t0)) =
                    (c0 :: srest).flatMap escapeChar ++ '<' :: '/' :: t0 := by
                  rw [escChars_cons, hed]
                  simp [List.append_assoc]
                rw [hback]
                have hflen : ((c0 :: srest).flatMap escapeChar).length =
                    (escapeChar c0).length +
                      (srest.flatMap escapeChar).length := by
                  rw [escChars_cons, List.length_append]
                have hdl : (serializeChildren [XML.text s]).data.length =
                    ((c0 :: srest).flatMap escapeChar).length := by
                  rw [hdata, hsd]
                have htext := parseText_escaped (c0 :: srest) []
                  ('<' :: '/' :: t0) f (Or.inr ⟨_, rfl⟩)
                  (by rw [hdl] at hfuel; simp at hfuel ⊢; omega)
                rw [htext]
                split
                · rename_i heq
                  rw [← hback] at heq
                  simp at heq
                · rename_i rest heq
                  rw [← hback, List.cons.injEq] at heq
                  exact absurd heq.1 hd0lt
                · rename_i rest heq
                  rw [← hback, List.cons.injEq] at heq
                  exact absurd heq.1 hd0lt
                · have hpn : parseNodes f ('<' :: '/' :: t0) =
                      some ([], '<' :: '/' :: t0) := by
                    rw [hdl] at hfuel
                    rcases Nat.exists_eq_add_of_le
                      (show 1 ≤ f by omega) with ⟨f', rfl⟩
                    rw [Nat.add_comm]
                    rfl
                  simp only [hpn, List.reverse_nil, List.nil_append]
                  rw [show (⟨c0 :: srest⟩ : String) = s from by
                    rw [← hsd]]
                  simp [canonList, hs]
      · -- element children
        cases cs with
        | nil =>
          subst hrest
          cases fuel with
          | zero => omega
          | succ f =>
            show parseNodes (f + 1)
              ((serializeChildren []).data ++ '<' :: '/' :: t0) = _
            rw [show (serializeChildren []).data = ([] : List Char) from rfl]
            simp [parseNodes, canonList]
        | cons e es =>
          obtain ⟨hwfe, n', a', cc, rfl⟩ :
              WF e ∧ ∃ n' a' cc, e = XML.elem n' a' cc := by
            have h := helems e (by simp)
            exact ⟨h.1, h.2⟩
          have hs1 : sizeOf (XML.elem n' a' cc :: es) =
              1 + sizeOf (XML.elem n' a' cc) + sizeOf es :=
            List.cons.sizeOf_spec (XML.elem n' a' cc) es
          have hepos : 1 ≤ sizeOf (XML.elem n' a' cc) := by
            rw [XML.elem.sizeOf_spec]
            omega
          have hsze : sizeOf (XML.elem n' a' cc) ≤ k := by omega
          have hszes : sizeOf es ≤ k := by omega
          obtain ⟨n2, a2, cc2, heq, hgn, hga, hok2⟩ := WF_inv hwfe
          injection heq with e1 e2 e3
          subst e1
          subst e2
          subst e3
          obtain ⟨hnne, hnchars⟩ := hgn
          rcases hnd : n'.data with _ | ⟨nc, nrest⟩
          · exact absurd hnd hnne
          · have hnc : isNameChar nc = true := by
              apply hnchars
              rw [hnd]
              simp
            have hncs : ¬ nc = '/' := (nameChar_props hnc).2.1
            subst hrest
            cases fuel with
            | zero => omega
            | succ f =>
              have hsercons :=
                serializeChildren_cons_data (XML.elem n' a' cc) es
              have hlen := congrArg List.length hsercons
              simp only [List.length_append] at hlen
              have hlpos : 1 ≤ (serializeXML (XML.elem n' a' cc)).data.length := by
                rw [serializeXML_elem_data]
                simp
              rw [hsercons, List.append_assoc]
              obtain ⟨Y, hY⟩ : ∃ Y,
                  (serializeXML (XML.elem n' a' cc)).data ++
                    ((serializeChildren es).data ++ '<' :: '/' :: t0) =
                  '<' :: nc :: Y :=
                ⟨nrest ++ ((serializeAttrs a').data ++
                    '>' :: ((serializeChildren cc).data ++
                      '<' :: '/' :: nc :: (nrest ++
                        '>' :: ((serializeChildren es).data ++
                          '<' :: '/' :: t0)))), by
                  rw [serializeXML_elem_data, hnd]
                  simp⟩
              rw [hY, parseNodes_cons_elem f nc Y hncs, ← hY]
              have hnodeIH := ih.1 (XML.elem n' a' cc) hsze hwfe f
                ((serializeChildren es).data ++ '<' :: '/' :: t0) (by
                  simp only [List.length_append, List.length_cons] at hfuel ⊢
                  omega)
              rw [hnodeIH]
              have hnodesIH := ih.2 es hszes
                (Or.inr (fun c hc => helems c (by simp [hc]))) f
                ('<' :: '/' :: t0) t0 rfl (by
                  simp only [List.length_cons] at hfuel ⊢
                  omega)
              simp only [hnodesIH]
              simp [canonList, canon]

theorem parseXMLDoc_prefix (X : List Char) (hX : ∃ r, X = '<' :: r) :
    parseXMLDoc ⟨xmlHeader.data ++ X⟩ =
      (match parseNode (2 * X.length + 8) X with
       | none => none
       | some (doc, rest) =>
           if (skipWs rest).isEmpty then some doc else none) := by
  obtain ⟨r, rfl⟩ := hX
  rfl

theorem parseXMLDoc_marshal (t : XML) (hwf : WF t) :
    parseXMLDoc (xmlHeader ++ serializeXML t) = some (canon t) := by
  have hd : (xmlHeader ++ serializeXML t).data =
      xmlHeader.data ++ (serializeXML t).data := rfl
  have hstr : xmlHeader ++ serializeXML t =
      (⟨xmlHeader.data ++ (serializeXML t).data⟩ : String) := by
    rw [← hd]
  have hhead : ∃ r, (serializeXML t).data = '<' :: r := by
    obtain ⟨n, attrs, cs0, rfl, hn, ha, hok⟩ := WF_inv hwf
    rw [serializeXML_elem_data]
    exact ⟨_, rfl⟩
  rw [hstr, parseXMLDoc_prefix _ hhead]
  have hmain := (parse_serialize_main (sizeOf t)).1 t le_rfl hwf
    (2 * (serializeXML t).data.length + 8) [] (by simp)
  rw [List.append_nil] at hmain
  rw [hmain]
  rfl

theorem textContent_foldl (a : String) (cs : List XML) :
    (canonList cs).foldl (fun acc c =>
      match c with
      | XML.text t => acc ++ t
      | XML.elem _ _ _ => acc) a =
    cs.foldl (fun acc c =>
      match c with
      | XML.text t => acc ++ t
      | XML.elem _ _ _ => acc) a := by
  induction cs generalizing a with
  | nil =>
    rw [show canonList ([] : List XML) = [] from by simp [canonList]]
  | cons c rest ih =>
    cases c with
    | text s =>
      by_cases hs : s = ""
      · subst hs
        rw [show canonList (XML.text "" :: rest) = canonList rest from by
          simp [canonList]]
        rw [ih]
        show _ = rest.foldl _ (a ++ "")
        rw [show a ++ "" = a from by
          cases a with
          | mk l =>
            show String.mk (l ++ []) = String.mk l
            rw [List.append_nil]]
      · rw [show canonList (XML.text s :: rest) =
            XML.text s :: canonList rest from by simp [canonList, hs]]
        show (canonList rest).foldl _ (a ++ s) = rest.foldl _ (a ++ s)
        exact ih (a ++ s)
    | elem n at_ cc =>
      rw [show canonList (XML.elem n at_ cc :: rest) =
          XML.elem n at_ (canonList cc) :: canonList rest from by
        simp [canonList]]
      show (canonList rest).foldl _ a = rest.foldl _ a
      exact ih a

theorem textContent_canonList (cs : List XML) :
    textContent (canonList cs) = textContent cs :=
  textContent_foldl "" cs

theorem unmarshalAddress_canon (acc : Address) (cs : List XML) :
    unmarshalAddress acc (canonList cs) = unmarshalAddress acc cs := by
  induction cs generalizing acc with
  | nil =>
    rw [show canonList ([] : List XML) = [] from by simp [canonList]]
  | cons c rest ih =>
    cases c with
    | text s =>
      by_cases hs : s = ""
      · subst hs
        rw [show canonList (XML.text "" :: rest) = canonList rest from by
          simp [canonList]]
        rw [ih]
        rfl
      · rw [show canonList (XML.text s :: rest) =
            XML.text s :: canonList rest from by simp [canonList, hs]]
        show unmarshalAddress acc (canonList rest) = unmarshalAddress acc rest
        exact ih acc
    | elem n at_ cc =>
      rw [show canonList (XML.elem n at_ cc :: rest) =
          XML.elem n at_ (canonList cc) :: canonList rest from by
        simp [canonList]]
      simp only [unmarshalAddress]
      rw [textContent_canonList]
      exact ih _

theorem unmarshalPayment_canon (acc : Payment) (cs : List XML) :
    unmarshalPayment acc (canonList cs) = unmarshalPayment acc cs := by
  induction cs generalizing acc with
  | nil =>
    rw [show canonList ([] : List XML) = [] from by simp [canonList]]
  | cons c rest ih =>
    cases c with
    | text s =>
      by_cases hs : s = ""
      · subst hs
        rw [show canonList (XML.text "" :: rest) = canonList rest from by
          simp [canonList]]
        rw [ih]
        rfl
      · rw [show canonList (XML.text s :: rest) =
            XML.text s :: canonList rest from by simp [canonList, hs]]
        show unmarshalPayment acc (canonList rest) = unmarshalPayment acc rest
        exact ih acc
    | elem n at_ cc =>
      rw [show canonList (XML.elem n at_ cc :: rest) =
          XML.elem n at_ (canonList cc) :: canonList rest from by
        simp [canonList]]
      simp only [unmarshalPayment]
      rw [textContent_canonList]
      exact ih _

theorem unmarshalService_canon (acc : Service) (cs : List XML) :
    unmarshalService acc (canonList cs) = unmarshalService acc cs := by
  induction cs generalizing acc with
  | nil =>
    rw [show canonList ([] : List XML) = [] from by simp [canonList]]
  | cons c rest ih =>
    cases c with
    | text s =>
      by_cases hs : s = ""
      · subst hs
        rw [show canonList (XML.text "" :: rest) = canonList rest from by
          simp [canonList]]
        rw [ih]
        rfl
      · rw [show canonList (XML.text s :: rest) =
            XML.text s :: canonList rest from by simp [canonList, hs]]
        show unmarshalService acc (canonList rest) = unmarshalService acc rest
        exact ih acc
    | elem n at_ cc =>
      rw [show canonList (XML.elem n at_ cc :: rest) =
          XML.elem n at_ (canonList cc) :: canonList rest from by
        simp [canonList]]
      simp only [unmarshalService]
      rw [textContent_canonList]
      exact ih _

theorem unmarshalPiece_canon {W : Type} (parseW : String → Option W)
    (acc : Piece W) (cs : List XML) :
    unmarshalPiece parseW acc (canonList cs) = unmarshalPiece parseW acc cs := by
  induction cs generalizing acc with
  | nil =>
    rw [show canonList ([] : List XML) = [] from by simp [canonList]]
  | cons c rest ih =>
    cases c with
    | text s =>
      by_cases hs : s = ""
      · subst hs
        rw [show canonList (XML.text "" :: rest) = canonList rest from by
          simp [canonList]]
        rw [ih]
        rfl
      · rw [show canonList (XML.text s :: rest) =
            XML.text s :: canonList rest from by simp [canonList, hs]]
        show unmarshalPiece parseW acc (canonList rest) =
          unmarshalPiece parseW acc rest
        exact ih acc
    | elem n at_ cc =>
      rw [show canonList (XML.elem n at_ cc :: rest) =
          XML.elem n at_ (canonList cc) :: canonList rest from by
        simp [canonList]]
      simp only [unmarshalPiece]
      rw [textContent_canonList]
      split_ifs with h1 h2 h3
      · exact ih _
      · rcases hpi : parseInt (textContent cc) with _ | q
        · rfl
        · exact ih _
      · rcases hpw : parseW (textContent cc) with _ | w
        · rfl
        · exact ih _
      · exact ih acc

theorem unmarshalPieceList_canon {W : Type} (parseW : String → Option W)
    (w0 : W) (acc : PieceList W) (cs : List XML) :
    unmarshalPieceList parseW w0 acc (canonList cs) =
      unmarshalPieceList parseW w0 acc cs := by
  induction cs generalizing acc with
  | nil =>
    rw [show canonList ([] : List XML) = [] from by simp [canonList]]
  | cons c rest ih =>
    cases c with
    | text s =>
      by_cases hs : s = ""
      · subst hs
        rw [show canonList (XML.text "" :: rest) = canonList rest from by
          simp [canonList]]
        rw [ih]
        rfl
      · rw [show canonList (XML.text s :: rest) =
            XML.text s :: canonList rest from by simp [canonList, hs]]
        show unmarshalPieceList parseW w0 acc (canonList rest) =
          unmarshalPieceList parseW w0 acc rest
        exact ih acc
    | elem n at_ cc =>
      rw [show canonList (XML.elem n at_ cc :: rest) =
          XML.elem n at_ (canonList cc) :: canonList rest from by
        simp [canonList]]
      simp only [unmarshalPieceList]
      rw [unmarshalPiece_canon]
      split_ifs with h1
      · rcases hp : unmarshalPiece parseW ⟨"", 0, w0⟩ cc with _ | p
        · rfl
        · exact ih _
      · exact ih acc

set_option maxHeartbeats 1000000 in

theorem unmarshalShipmentItem_canon {W : Type} (parseW : String → Option W)
    (w0 : W) (acc : ShipmentItem W) (cs : List XML) :
    unmarshalShipmentItem parseW w0 acc (canonList cs) =
      unmarshalShipmentItem parseW w0 acc cs := by
  induction cs generalizing acc with
  | nil =>
    rw [show canonList ([] : List XML) = [] from by simp [canonList]]
  | cons c rest ih =>
    cases c with
    | text s =>
      by_cases hs : s = ""
      · subst hs
        rw [show canonList (XML.text "" :: rest) = canonList rest from by
          simp [canonList]]
        rw [ih]
        rfl
      · rw [show canonList (XML.text s :: rest) =
            XML.text s :: canonList rest from by simp [canonList, hs]]
        show unmarshalShipmentItem parseW w0 acc (canonList rest) =
          unmarshalShipmentItem parseW w0 acc rest
        exact ih acc
    | elem n at_ cc =>
      rw [show canonList (XML.elem n at_ cc :: rest) =
          XML.elem n at_ (canonList cc) :: canonList rest from by
        simp [canonList]]
      simp only [unmarshalShipmentItem]
      simp only [textContent_canonList, unmarshalAddress_canon,
        unmarshalPieceList_canon, unmarshalPayment_canon,
        unmarshalService_canon, ih]

theorem unmarshalItemInBody_canon {W : Type} (parseW : String → Option W)
    (w0 : W) (acc : ShipmentItem W) (cs : List XML) :
    unmarshalItemInBody parseW w0 acc (canonList cs) =
      unmarshalItemInBody parseW w0 acc cs := by
  induction cs generalizing acc with
  | nil =>
    rw [show canonList ([] : List XML) = [] from by simp [canonList]]
  | cons c rest ih =>
    cases c with
    | text s =>
      by_cases hs : s = ""
      · subst hs
        rw [show canonList (XML.text "" :: rest) = canonList rest from by
          simp [canonList]]
        rw [ih]
        rfl
      · rw [show canonList (XML.text s :: rest) =
            XML.text s :: canonList rest from by simp [canonList, hs]]
        show unmarshalItemInBody parseW w0 acc (canonList rest) =
          unmarshalItemInBody parseW w0 acc rest
        exact ih acc
    | elem n at_ cc =>
      rw [show canonList (XML.elem n at_ cc :: rest) =
          XML.elem n at_ (canonList cc) :: canonList rest from by
        simp [canonList]]
      simp only [unmarshalItemInBody]
      rw [unmarshalShipmentItem_canon]
      split_ifs with h1
      · rcases hi : unmarshalShipmentItem parseW w0 acc cc with _ | acc2
        · rfl
        · exact ih _
      · exact ih acc

theorem unmarshalBodyItem_canon {W : Type} (parseW : String → Option W)
    (w0 : W) (acc : ShipmentItem W) (cs : List XML) :
    unmarshalBodyItem parseW w0 acc (canonList cs) =
      unmarshalBodyItem parseW w0 acc cs := by
  induction cs generalizing acc with
  | nil =>
    rw [show canonList ([] : List XML) = [] from by simp [canonList]]
  | cons c rest ih =>
    cases c with
    | text s =>
      by_cases hs : s = ""
      · subst hs
        rw [show canonList (XML.text "" :: rest) = canonList rest from by
          simp [canonList]]
        rw [ih]
        rfl
      · rw [show canonList (XML.text s :: rest) =
            XML.text s :: canonList rest from by simp [canonList, hs]]
        show unmarshalBodyItem parseW w0 acc (canonList rest) =
          unmarshalBodyItem parseW w0 acc rest
        exact ih acc
    | elem n at_ cc =>
      rw [show canonList (XML.elem n at_ cc :: rest) =
          XML.elem n at_ (canonList cc) :: canonList rest from by
        simp [canonList]]
      simp only [unmarshalBodyItem]
      rw [unmarshalItemInBody_canon]
      split_ifs with h1
      · rcases hi : unmarshalItemInBody parseW w0 acc cc with _ | acc2
        · rfl
        · exact ih _
      · exact ih acc

theorem decodeShipmentItemEnvelope_canon {W : Type}
    (parseW : String → Option W) (w0 : W) (doc : XML) :
    decodeShipmentItemEnvelope parseW w0 (canon doc) =
      decodeShipmentItemEnvelope parseW w0 doc := by
  cases doc with
  | text s => rfl
  | elem n at_ cs =>
    rw [show canon (XML.elem n at_ cs) =
        XML.elem n at_ (canonList cs) from by simp [canon]]
    simp only [decodeShipmentItemEnvelope]
    rw [unmarshalBodyItem_canon]

theorem WF_leaf (n s : String) (hn : goodName n) :
    WF (XML.elem n [] [XML.text s]) :=
  WF.textChild n [] s hn (by simp)

theorem Address_elems_WF (a : Address) :
    ∀ c ∈ Address.elems a, WF c ∧ ∃ n' a' cc, c = XML.elem n' a' cc := by
  intro c hc
  unfold Address.elems at hc
  split_ifs at hc <;>
    simp only [List.nil_append, List.append_nil, List.cons_append,
      List.singleton_append, List.append_assoc] at hc <;>
    fin_cases hc <;>
    exact ⟨WF_leaf _ _ ⟨by decide, by decide⟩, _, _, _, rfl⟩

theorem Piece_elems_WF {W : Type} (fmtW : W → String) (p : Piece W) :
    ∀ c ∈ Piece.elems fmtW p, WF c ∧ ∃ n' a' cc, c = XML.elem n' a' cc := by
  intro c hc
  unfold Piece.elems at hc
  fin_cases hc <;>
    exact ⟨WF_leaf _ _ ⟨by decide, by decide⟩, _, _, _, rfl⟩

theorem Payment_elems_WF (p : Payment) :
    ∀ c ∈ Payment.elems p, WF c ∧ ∃ n' a' cc, c = XML.elem n' a' cc := by
  intro c hc
  unfold Payment.elems at hc
  fin_cases hc <;>
    exact ⟨WF_leaf _ _ ⟨by decide, by decide⟩, _, _, _, rfl⟩

theorem Service_elems_WF (s : Service) :
    ∀ c ∈ Service.elems s, WF c ∧ ∃ n' a' cc, c = XML.elem n' a' cc := by
  intro c hc
  unfold Service.elems at hc
  fin_cases hc
  exact ⟨WF_leaf _ _ ⟨by decide, by decide⟩, _, _, _, rfl⟩

theorem PieceList_elems_WF {W : Type} (fmtW : W → String) (pl : PieceList W) :
    ∀ c ∈ PieceList.elems fmtW pl, WF c ∧ ∃ n' a' cc, c = XML.elem n' a' cc := by
  intro c hc
  unfold PieceList.elems at hc
  simp only [List.mem_map] at hc
  obtain ⟨p, hp, rfl⟩ := hc
  refine ⟨WF.elemChildren _ _ _ ⟨by decide, by decide⟩ (by simp)
    (fun c hc => (Piece_elems_WF fmtW p c hc).1)
    (fun c hc => (Piece_elems_WF fmtW p c hc).2), _, _, _, rfl⟩

theorem ShipmentItem_elems_WF {W : Type} (fmtW : W → String)
    (x : ShipmentItem W) :
    ∀ c ∈ ShipmentItem.elems fmtW x,
      WF c ∧ ∃ n' a' cc, c = XML.elem n' a' cc := by
  intro c hc
  unfold ShipmentItem.elems at hc
  fin_cases hc
  · exact ⟨WF.elemChildren _ _ _ ⟨by decide, by decide⟩ (by simp)
      (fun c hc => (Address_elems_WF x.Shipper c hc).1)
      (fun c hc => (Address_elems_WF x.Shipper c hc).2), _, _, _, rfl⟩
  · exact ⟨WF.elemChildren _ _ _ ⟨by decide, by decide⟩ (by simp)
      (fun c hc => (Address_elems_WF x.Receiver c hc).1)
      (fun c hc => (Address_elems_WF x.Receiver c hc).2), _, _, _, rfl⟩
  · exact ⟨WF.elemChildren _ _ _ ⟨by decide, by decide⟩ (by simp)
      (fun c hc => (PieceList_elems_WF fmtW x.PieceList c hc).1)
      (fun c hc => (PieceList_elems_WF fmtW x.PieceList c hc).2), _, _, _, rfl⟩
  · exact ⟨WF.elemChildren _ _ _ ⟨by decide, by decide⟩ (by simp)
      (fun c hc => (Payment_elems_WF x.Payment c hc).1)
      (fun c hc => (Payment_elems_WF x.Payment c hc).2), _, _, _, rfl⟩
  · exact ⟨WF.elemChildren _ _ _ ⟨by decide, by decide⟩ (by simp)
      (fun c hc => (Service_elems_WF x.Service c hc).1)
      (fun c hc => (Service_elems_WF x.Service c hc).2), _, _, _, rfl⟩
  · exact ⟨WF_leaf _ _ ⟨by decide, by decide⟩, _, _, _, rfl⟩
  · exact ⟨WF_leaf _ _ ⟨by decide, by decide⟩, _, _, _, rfl⟩
  · exact ⟨WF_leaf _ _ ⟨by decide, by decide⟩, _, _, _, rfl⟩
  · exact ⟨WF_leaf _ _ ⟨by decide, by decide⟩, _, _, _, rfl⟩

theorem envelope_WF {W : Type} (fmtW : W → String) (x : ShipmentItem W) :
    WF (SOAPEnvelope.toXML ⟨soapenvNS, dhlNS,
      ⟨XML.elem "item" [] (ShipmentItem.elems fmtW x)⟩⟩) := by
  refine WF.elemChildren _ _ _ ⟨by decide, by decide⟩ ?_ ?_ ?_
  · intro kv hkv
    fin_cases hkv
    · exact show goodName "xmlns:soapenv" from ⟨by decide, by decide⟩
    · exact show goodName "xmlns:ns" from ⟨by decide, by decide⟩
  · intro c hc
    fin_cases hc
    · exact WF.elemChildren _ _ _ ⟨by decide, by decide⟩ (by simp)
        (by simp) (by simp)
    · refine WF.elemChildren _ _ _ ⟨by decide, by decide⟩ (by simp) ?_ ?_
      · intro c hc
        fin_cases hc
        exact WF.elemChildren _ _ _ ⟨by decide, by decide⟩ (by simp)
          (fun c hc => (ShipmentItem_elems_WF fmtW x c hc).1)
          (fun c hc => (ShipmentItem_elems_WF fmtW x c hc).2)
      · intro c hc
        fin_cases hc
        exact ⟨_, _, _, rfl⟩
  · intro c hc
    fin_cases hc
    · exact ⟨_, _, _, rfl⟩
    · exact ⟨_, _, _, rfl⟩

/-! ## The claims -/

/-- C1: for every `ShipmentItem` x, unmarshaling the bytes that
`marshalSOAPRequest` produced for the envelope wrapping x yields x back
on every populated field (shipper, receiver, pieceList, payment,
service, shipmentDate, skipRestrictionCheck, comment, content) —
`decode (encode x) = some x` at the wire-text level, through the XML
declaration line, the serializer with its escaping, and the parser.
The float64 weight codec is abstract (`fmtW`/`parseW`); its round-trip
hypothesis `hW` is the documented `strconv` FormatFloat/ParseFloat
guarantee. -/
theorem shipmentItem_decode_encode {W : Type} (fmtW : W → String)
    (parseW : String → Option W) (hW : ∀ w, parseW (fmtW w) = some w)
    (w0 : W) (x : ShipmentItem W) :
    decodeShipmentItemBytes parseW w0
      (marshalSOAPRequest (XML.elem "item" [] (ShipmentItem.elems fmtW x))) =
      some x := by
  unfold decodeShipmentItemBytes
  rw [show marshalSOAPRequest (XML.elem "item" [] (ShipmentItem.elems fmtW x)) =
      xmlHeader ++ serializeXML (SOAPEnvelope.toXML ⟨soapenvNS, dhlNS,
        ⟨XML.elem "item" [] (ShipmentItem.elems fmtW x)⟩⟩) from rfl]
  rw [parseXMLDoc_marshal _ (envelope_WF fmtW x)]
  show decodeShipmentItemEnvelope parseW w0
    (canon (SOAPEnvelope.toXML ⟨soapenvNS, dhlNS,
      ⟨XML.elem "item" [] (ShipmentItem.elems fmtW x)⟩⟩)) = some x
  rw [decodeShipmentItemEnvelope_canon]
  show (match unmarshalItemInBody parseW w0 ShipmentItem.zero
      [XML.elem "item" [] (ShipmentItem.elems fmtW x)] with
    | none => none
    | some acc2 => unmarshalBodyItem parseW w0 acc2 []) = some x
  rw [itemInBody_step (unmarshalShipmentItem_elems fmtW parseW hW w0 x)]
  rfl

/-- C1 witness: the byte-level round trip at the decimal-`Nat` weight
codec and a concrete two-piece shipment. -/
theorem shipmentItem_decode_encode_witness :
    decodeShipmentItemBytes parseNat 0
      (marshalSOAPRequest
        (XML.elem "item" [] (ShipmentItem.elems formatNat sampleItem))) =
      some sampleItem :=
  shipmentItem_decode_encode formatNat parseNat parseNat_formatNat 0
    sampleItem

/-- C2 counterexample: on a response with zero populated slots the
envelope decodes, but `GetMyShipments` returns a plain success with the
empty list — not an empty-response error as the claim states for all
three methods. -/
theorem getMyShipments_emptyBody_is_ok :
    getMyShipmentsDecode emptyBodyResponse =
      Except.ok ([] : List ShipmentBasicData) := rfl

/-- C2 (amended): when the outer envelope decodes with all three known
slots absent, `GetVersion` and `CreateShipments` return their
empty-response errors, while `GetMyShipments` succeeds with the empty
list (its decode path has no slot check). -/
theorem emptySlots_behavior (s : String) (doc : XML)
    (env : SOAPResponseEnvelope)
    (h1 : parseXMLDoc s = some doc)
    (h2 : unmarshalSOAPResponseEnvelope doc = some env)
    (h3 : env.Body = SOAPResponseBody.zero) :
    getVersionDecode s = Except.error ClientError.emptyGetVersion ∧
    createShipmentsDecode s = Except.error ClientError.emptyCreateShipments ∧
    getMyShipmentsDecode s = Except.ok ([] : List ShipmentBasicData) := by
  have hsms : env.Body.GetMyShipmentsResponse = none := by rw [h3]; rfl
  have hmy := getMyShipments_env_of_no_slot h2 hsms
  refine ⟨?_, ?_, ?_⟩
  · simp [getVersionDecode, h1, h2, h3, SOAPResponseBody.zero]
  · simp [createShipmentsDecode, h1, h2, h3, SOAPResponseBody.zero]
  · simp [getMyShipmentsDecode, h1, hmy, GetMyShipmentsResponse.zero,
      GetMyShipmentsResult.zero]

/-- C2 witness: a concrete slotless response exercised through all three
decode paths. -/
theorem emptySlots_behavior_witness :
    getVersionDecode emptyBodyResponse =
      Except.error ClientError.emptyGetVersion ∧
    createShipmentsDecode emptyBodyResponse =
      Except.error ClientError.emptyCreateShipments ∧
    getMyShipmentsDecode emptyBodyResponse =
      Except.ok ([] : List ShipmentBasicData) :=
  emptySlots_behavior emptyBodyResponse
    (XML.elem "Envelope" [] [XML.elem "Body" [] []])
    ⟨⟨none, none, none⟩⟩ rfl rfl rfl

/-- C3 counterexample: two submitted items against a one-item response
return a silent one-element success, not a count-mismatch error. -/
theorem createShipments_short_response_silent :
    createShipments
        [(ShipmentItem.zero : ShipmentItem Nat), ShipmentItem.zero]
        oneItemResponse =
      Except.ok [⟨"S1", "", ""⟩] := rfl

/-- C3 (amended): `CreateShipments` returns exactly the decoded item
sequence of the `createShipmentsResponse` slot, never comparing its
length with the number of submitted shipments (there is no
count-mismatch check in the code). -/
theorem createShipments_returns_decoded_items {W : Type}
    (shipments : List (ShipmentItem W)) (s : String) (doc : XML)
    (env : SOAPResponseEnvelope) (r : CreateShipmentsResponse)
    (h1 : parseXMLDoc s = some doc)
    (h2 : unmarshalSOAPResponseEnvelope doc = some env)
    (h3 : env.Body.CreateShipmentsResponse = some r) :
    createShipments shipments s = Except.ok r.Result.Items := by
  simp [createShipments, createShipmentsDecode, h1, h2, h3]

/-- C3 witness: a submitted shipment against a response whose result
list is empty still returns the (empty) decoded list. -/
theorem createShipments_returns_decoded_items_witness :
    createShipments [(ShipmentItem.zero : ShipmentItem Nat)]
        "<Envelope><Body><createShipmentsResponse></createShipmentsResponse></Body></Envelope>" =
      Except.ok ([] : List CreatedShipment) :=
  createShipments_returns_decoded_items _ _
    (XML.elem "Envelope" []
      [XML.elem "Body" [] [XML.elem "createShipmentsResponse" [] []]])
    ⟨⟨none, some ⟨⟨[]⟩⟩, none⟩⟩ ⟨⟨[]⟩⟩ rfl rfl rfl

/-- C4 counterexample: a response carrying a remote business fault
(code 100, invalid credentials) produces exactly the same error value as
a response with no populated slot — the fault is not surfaced as a
distinguishable error kind. -/
theorem fault_same_error_as_empty :
    getVersionDecode faultResponse = Except.error ClientError.emptyGetVersion ∧
    getVersionDecode emptyBodyResponse =
      Except.error ClientError.emptyGetVersion := ⟨rfl, rfl⟩

/-- C4 (amended): the response body type has no fault slot, so any
fault-bearing response collapses to the empty-response error of the
invoked method — indistinguishable from a slotless response. -/
theorem fault_collapses_to_empty_error (s : String)
    (attrs battrs fattrs : List (String × String)) (fcs : List XML)
    (h : parseXMLDoc s = some (XML.elem "Envelope" attrs
      [XML.elem "Body" battrs [XML.elem "Fault" fattrs fcs]])) :
    getVersionDecode s = Except.error ClientError.emptyGetVersion ∧
    createShipmentsDecode s = Except.error ClientError.emptyCreateShipments := by
  constructor
  · unfold getVersionDecode
    rw [h]
    rfl
  · unfold createShipmentsDecode
    rw [h]
    rfl

/-- C4 witness: the concrete fault document through both decode
paths. -/
theorem fault_collapses_to_empty_error_witness :
    getVersionDecode faultResponse = Except.error ClientError.emptyGetVersion ∧
    createShipmentsDecode faultResponse =
      Except.error ClientError.emptyCreateShipments :=
  fault_collapses_to_empty_error faultResponse [] [] []
    [XML.elem "faultcode" [] [XML.text "100"],
     XML.elem "faultstring" [] [XML.text "Invalid credentials"]] rfl

/-- C5: `marshalSOAPRequest` produces the XML declaration line followed
by the serialization of a single `soapenv:Envelope` element carrying
exactly the two namespace attribute declarations, an empty
`soapenv:Header` child, and a `soapenv:Body` child whose sole content is
the payload. -/
theorem marshalSOAPRequest_shape (payload : XML) :
    marshalSOAPRequest payload =
      xmlHeader ++ serializeXML (XML.elem "soapenv:Envelope"
        [("xmlns:soapenv", soapenvNS), ("xmlns:ns", dhlNS)]
        [XML.elem "soapenv:Header" [] [],
         XML.elem "soapenv:Body" [] [payload]]) := rfl

/-- C6: `GetMyShipmentsLastDays(n)` requests `createdFrom` = today minus
n days, `createdTo` = today and offset 0; in particular with today
2024-06-10 and n = 7 it requests 2024-06-03 to 2024-06-10 at offset
0. -/
theorem getMyShipmentsLastDays_range (c : Client) (now : Date) (n : Nat) :
    ((c.getMyShipmentsLastDaysRequest now n).CreatedFrom =
        (now.addDays (-(n : Int))).format ∧
      (c.getMyShipmentsLastDaysRequest now n).CreatedTo = now.format ∧
      (c.getMyShipmentsLastDaysRequest now n).Offset = 0) ∧
    ((c.getMyShipmentsLastDaysRequest ⟨2024, 6, 10⟩ 7).CreatedFrom =
        "2024-06-03" ∧
      (c.getMyShipmentsLastDaysRequest ⟨2024, 6, 10⟩ 7).CreatedTo =
        "2024-06-10" ∧
      (c.getMyShipmentsLastDaysRequest ⟨2024, 6, 10⟩ 7).Offset = 0) :=
  ⟨⟨rfl, rfl, rfl⟩, ⟨rfl, rfl, rfl⟩⟩

/-- C7: a well-formed response whose `getVersionResponse` slot holds a
`getVersionResult` element makes `GetVersion` return exactly that
element's text content. -/
theorem getVersion_extracts_result (s : String) (v : String)
    (attrs battrs gattrs rattrs : List (String × String))
    (h : parseXMLDoc s = some (XML.elem "Envelope" attrs
      [XML.elem "Body" battrs
        [XML.elem "getVersionResponse" gattrs
          [XML.elem "getVersionResult" rattrs [XML.text v]]]])) :
    getVersionDecode s = Except.ok v := by
  unfold getVersionDecode
  rw [h]
  rfl

/-- C7 witness: the claim's own document decodes to version
"2.13.3". -/
theorem getVersion_extracts_result_witness :
    getVersionDecode
        ("<Envelope><Body><getVersionResponse><getVersionResult>2.13.3" ++
         "</getVersionResult></getVersionResponse></Body></Envelope>") =
      Except.ok "2.13.3" :=
  getVersion_extracts_result _ "2.13.3" [] [] [] [] rfl

/-- C8: `CreateShipment` errors when the decoded response holds zero
confirmations, and otherwise returns the first confirmation — also when
the response holds more than one item, with no extra error for counts
above one. -/
theorem createShipment_first_or_error {W : Type} (shipment : ShipmentItem W)
    (s : String) :
    (createShipmentsDecode s = Except.ok [] →
      createShipment shipment s = Except.error ClientError.noShipmentCreated) ∧
    (∀ (r : CreatedShipment) (rs : List CreatedShipment),
      createShipmentsDecode s = Except.ok (r :: rs) →
      createShipment shipment s = Except.ok r) := by
  constructor
  · intro h
    unfold createShipment createShipments
    rw [h]
  · intro r rs h
    unfold createShipment createShipments
    rw [h]

/-- C8 witness: a two-item response yields the first item and no
error. -/
theorem createShipment_first_or_error_witness :
    createShipment (ShipmentItem.zero : ShipmentItem Nat) twoItemResponse =
      Except.ok ⟨"A", "", ""⟩ :=
  (createShipment_first_or_error ShipmentItem.zero twoItemResponse).2
    ⟨"A", "", ""⟩ [⟨"B", "", ""⟩] rfl

/-- C9: bytes that are not well-formed wire text make every decode path
return the parse error, never a success value. -/
theorem malformed_response_parse_error (s : String)
    (h : parseXMLDoc s = none) :
    getVersionDecode s = Except.error ClientError.parse ∧
    createShipmentsDecode s = Except.error ClientError.parse ∧
    getMyShipmentsDecode s = Except.error ClientError.parse := by
  refine ⟨?_, ?_, ?_⟩
  · unfold getVersionDecode; rw [h]
  · unfold createShipmentsDecode; rw [h]
  · unfold getMyShipmentsDecode; rw [h]

/-- C9 witness: truncated XML is rejected by all three decode paths. -/
theorem malformed_response_parse_error_witness :
    parseXMLDoc "<Envelope><Body>" = none ∧
    getVersionDecode "<Envelope><Body>" = Except.error ClientError.parse ∧
    createShipmentsDecode "<Envelope><Body>" = Except.error ClientError.parse ∧
    getMyShipmentsDecode "<Envelope><Body>" = Except.error ClientError.parse :=
  ⟨rfl, (malformed_response_parse_error "<Envelope><Body>" rfl).1,
    (malformed_response_parse_error "<Envelope><Body>" rfl).2.1,
    (malformed_response_parse_error "<Envelope><Body>" rfl).2.2⟩

/-- C10: the `getVersion` request body carries no field of the
configuration — two clients with different credentials build
byte-for-byte identical request bodies. -/
theorem getVersion_request_config_independent (c1 c2 : Client) :
    c1.getVersionRequestBody = c2.getVersionRequestBody := rfl

end DHL
